import Mathlib

/-!
Verification development for the electric-book bookmarks subsystem
(src/assets/js/bookmarks.js).

The JavaScript source is shallowly embedded as pure Lean functions:
browser localStorage is a list of key/record pairs (iteration order of
Object.keys is represented by list order), sessionStorage slots are Option
values, and DOM effects are projected onto explicit element states.
Session identifiers are Date.now() timestamps; the program only ever
creates and stores their decimal digit strings, so they are modelled as
Nat and rendered with toString where the code manipulates them as
strings (key construction and the String.includes retention check).
-/

/-! ### JavaScript string primitives (character-exact models) -/

/-- Model of JS String.prototype.startsWith for our ASCII keys. -/
def strStarts (s pre : String) : Bool :=
  pre.data.isPrefixOf s.data

/-- Infix test on character lists, recursion on the haystack. -/
def chIsInfix (needle : List Char) : List Char → Bool
  | [] => needle.isEmpty
  | c :: cs => needle.isPrefixOf (c :: cs) || chIsInfix needle cs

/-- Model of JS String.prototype.includes. -/
def strIncludes (hay needle : String) : Bool :=
  chIsInfix needle.data hay.data

/-- Model of JS String.prototype.slice(0, n) for a nonnegative bound. -/
def strTake (s : String) (n : Nat) : String :=
  String.mk (s.data.take n)

/-- Model of JS url.split(sep)[0] where sep is the hash character:
the prefix of the string before the first occurrence of the char. -/
def strBeforeChar (s : String) (c : Char) : String :=
  String.mk (s.data.takeWhile (fun x => x != c))

/-- Last index at which a character satisfies p, as JS lastIndexOf:
-1 when there is no occurrence. -/
def chLastIdx (p : Char → Bool) : List Char → Int
  | [] => -1
  | c :: cs =>
    let r := chLastIdx p cs
    if r ≥ 0 then r + 1 else if p c then 0 else -1

/-- Model of JS String.prototype.lastIndexOf for a single character. -/
def jsLastIndexOf (s : String) (c : Char) : Int :=
  chLastIdx (fun x => x == c) s.data

/-- Model of JS String.prototype.slice(0, e) where e may be negative
(a negative e counts back from the end of the string). -/
def jsSliceTo (s : String) (e : Int) : String :=
  if e < 0 then strTake s (s.length - e.natAbs) else strTake s e.toNat

/-! ### Data model: BookmarkRecord and localStorage -/

/-- A persisted bookmark record, as built by ebBookmarksSetBookmark.
The type field holds the literal strings userBookmark or lastLocation. -/
structure EbBookmark where
  key : String
  sessionDate : Nat
  type : String
  bookTitle : String
  pageTitle : String
  description : String
  id : String
  fingerprint : Option String
  location : String
deriving DecidableEq

/-- localStorage: key/record pairs, list order standing for the
(implementation-defined) Object.keys iteration order. -/
abbrev EbStorage := List (String × EbBookmark)

/-- localStorage.getItem followed by JSON.parse: the record stored at a
key, if any (find? returns the first entry, and real localStorage keys
are unique). -/
def ebGetItem (st : EbStorage) (k : String) : Option EbBookmark :=
  (st.find? (fun e => e.1 == k)).map (fun e => e.2)

/-- localStorage.setItem with a JSON-serialized record: replaces the
entry at the key if present, otherwise appends a new entry. -/
def ebSetItem : EbStorage → String → EbBookmark → EbStorage
  | [], k, v => [(k, v)]
  | e :: es, k, v => if e.1 == k then (k, v) :: es else e :: ebSetItem es k v

/-- localStorage.removeItem. -/
def ebRemoveItem (st : EbStorage) (k : String) : EbStorage :=
  st.filter (fun e => e.1 != k)

/-! ### SessionManager: ebBookmarksSessionDate (bookmarks.js lines 118-130)

sessionStorage is modelled by the Option Nat slot for the sessionDate
key; now is the Date.now() value at call time.  The function returns the
identifier together with the slot after the call. -/

def ebBookmarksSessionDate (now : Nat) (ss : Option Nat) : Nat × Option Nat :=
  match ss with
  | some d => (d, some d)
  | none => (now, some now)

/-! ### LastLocationPolicy: ebBookmarksCleanLastLocations (lines 133-187) -/

/-- The collection filter of the two Object.keys loops in
ebBookmarksCleanLastLocations: the key starts with the bookmark prefix,
contains the lastLocation segment, and the parsed record has the book
title being cleaned. -/
def ebIsLastLocationEntry (title : String) (e : String × EbBookmark) : Bool :=
  strStarts e.1 "bookmark-" && strIncludes e.1 "-lastLocation-"
    && title == e.2.bookTitle

/-- Stable insertion into a list sorted ascending by sessionDate. -/
def ebInsertByDate (r : EbBookmark) : List EbBookmark → List EbBookmark
  | [] => [r]
  | x :: xs =>
    if r.sessionDate ≤ x.sessionDate then r :: x :: xs
    else x :: ebInsertByDate r xs

/-- The JS Array.prototype.sort call with comparator
parseFloat(a.sessionDate) - parseFloat(b.sessionDate): a stable
ascending sort by the numeric session-timestamp value. -/
def ebSortByDate : List EbBookmark → List EbBookmark
  | [] => []
  | x :: xs => ebInsertByDate x (ebSortByDate xs)

/-- Lines 147-165 on an already-collected record list: slice to the
last two (before sorting, as the code does), sort ascending by
sessionDate, and drop the first element when more than one record
predates the current session cur. -/
def ebKeptOf (cur : Nat) (l : List EbBookmark) : List EbBookmark :=
  let ls1 := l.drop (l.length - 2)
  let ls2 := ebSortByDate ls1
  let prior := (ls2.filter (fun r => r.sessionDate != cur)).length
  if prior > 1 then ls2.drop 1 else ls2

/-- Lines 135-165 of ebBookmarksCleanLastLocations: collect the
lastLocation records of the title in storage order, then apply the
slice/sort/splice retention computation. -/
def ebKeptLastLocations (title : String) (cur : Nat) (st : EbStorage) :
    List EbBookmark :=
  ebKeptOf cur ((st.filter (ebIsLastLocationEntry title)).map (fun e => e.2))

/-- Line 168-186: remove every lastLocation entry of the title whose key
does not contain (String.includes) the sessionDate digits of one of the
kept records. -/
def ebBookmarksCleanLastLocations (title : String) (cur : Nat)
    (st : EbStorage) : EbStorage :=
  let kept := ebKeptLastLocations title cur st
  st.filter (fun e =>
    if ebIsLastLocationEntry title e then
      kept.any (fun r => strIncludes e.1 (toString r.sessionDate))
    else true)

/-! ### BookmarkStore: ebBookmarksCheckForBookmarks (lines 345-383) -/

/-- The first Object.keys loop of ebBookmarksCheckForBookmarks: the key
snapshot is taken once, and each bookmark-prefixed key that still parses
to a record triggers a clean of that record's title (a key already
removed by an earlier clean yields null and is skipped). -/
def ebCleanFold (cur : Nat) : List String → EbStorage → EbStorage
  | [], s => s
  | k :: ks, s =>
    ebCleanFold cur ks
      (match ebGetItem s k with
       | some r => ebBookmarksCleanLastLocations r.bookTitle cur s
       | none => s)

/-- The whole housekeeping pass: clean last locations for the title of
every bookmark-prefixed key in storage. -/
def ebBookmarksCleanAll (cur : Nat) (st : EbStorage) : EbStorage :=
  ebCleanFold cur ((st.map (fun e => e.1)).filter
    (fun k => strStarts k "bookmark-")) st

/-- The second loop of ebBookmarksCheckForBookmarks: the visible set is
every bookmark-prefixed record that is not a lastLocation of the current
session. -/
def ebBookmarksVisible (cur : Nat) (st : EbStorage) : List EbBookmark :=
  ((st.filter (fun e => strStarts e.1 "bookmark-")).map (fun e => e.2)).filter
    (fun b => b.type != "lastLocation" || b.sessionDate != cur)

/-- ebBookmarksCheckForBookmarks: housekeeping then the visible set.
Returns the visible bookmarks (passed on to marking and listing)
together with the storage after the pass. -/
def ebBookmarksCheckForBookmarks (cur : Nat) (st : EbStorage) :
    List EbBookmark × EbStorage :=
  let st1 := ebBookmarksCleanAll cur st
  (ebBookmarksVisible cur st1, st1)

/-- The filter applied by ebBookmarksListBookmarks (lines 251-261) when
building the last-locations list: a lastLocation of the current session
is skipped, everything else of lastLocation type is appended to that
list. -/
def ebBookmarksListedLastLocations (cur : Nat)
    (bookmarks : List EbBookmark) : List EbBookmark :=
  bookmarks.filter (fun b =>
    !(b.type == "lastLocation" && b.sessionDate == cur)
      && b.type == "lastLocation")

/-- ebBookmarksDeleteBookmark (lines 386-394): remove the entry at the
record's key, then rerun ebBookmarksCheckForBookmarks; the storage
component of the result. -/
def ebBookmarksDeleteBookmark (cur : Nat) (b : EbBookmark)
    (st : EbStorage) : EbStorage :=
  (ebBookmarksCheckForBookmarks cur (ebRemoveItem st b.key)).2

/-! ### FingerprintIndex: ebBookmarksFingerprintID (lines 83-115) -/

/-- A document element as this script sees it: its id attribute and its
optional data-fingerprint attribute. -/
structure EbElement where
  id : String
  innerText : String
  fingerprint : Option String
deriving DecidableEq

/-- The document, in document order; getElementById returns the first
element with the id. -/
abbrev EbDocument := List EbElement

def ebGetElementById (doc : EbDocument) (i : String) : Option EbElement :=
  doc.find? (fun e => e.id == i)

/-- Result of ebBookmarksFingerprintID.  The JS function returns false
when there is no element, no usable fingerprint or no index; falls off
the end (undefined) after raising window.alert on an index mismatch; and
returns the indexed id when it matches the live id. -/
inductive EbFingerprintResult where
  | notFound
  | mismatchWarned
  | verified (id : String)
deriving DecidableEq

/-- ebBookmarksFingerprintID.  The session-scoped index-of-bookmarks is
modelled already parsed, as an optional fingerprint-to-id association
list (absent when sessionStorage has no entry).  An empty-string
data-fingerprint attribute is falsy in JS and is treated like a missing
one. -/
def ebBookmarksFingerprintID (doc : EbDocument)
    (index : Option (List (String × String))) (elementID : String) :
    EbFingerprintResult :=
  match ebGetElementById doc elementID with
  | none => .notFound
  | some element =>
    match element.fingerprint, index with
    | some fp, some idx =>
      if fp == "" then .notFound
      else
        let indexedID := (idx.find? (fun p => p.1 == fp)).map (fun p => p.2)
        if indexedID != some elementID then .mismatchWarned
        else .verified elementID
    | _, _ => .notFound

/-! ### BookmarkStore: ebBookmarksSetBookmark (lines 459-516) -/

/-- The ambient page state read by ebBookmarksSetBookmark and
ebBookmarksElementID: document.body.dataset.title, document.title,
window.location.href and hash, and the id of the first element with an
id on the page (the last fallback of ebBookmarksElementID). -/
structure EbPage where
  bodyDataTitle : String
  docTitle : String
  href : String
  hash : String
  firstID : String
deriving DecidableEq

/-- ebBookmarksElementID (lines 434-456) for a supplied element (when no
element is supplied the code first resolves the element currently marked
onscreen): the element's id if nonempty, else the location hash if
nonempty, else the id of the first identified element on the page. -/
def ebBookmarksElementID (page : EbPage) (element : EbElement) : String :=
  if element.id != "" then element.id
  else if page.hash != "" then page.hash
  else page.firstID

/-- Lines 462-475: the description fallback.  A falsy description
argument (absent, or the empty string) is replaced by the first 50
characters of the element's innerText, cut at the later of the last
space and the last full stop (JS slice with a possibly negative index),
with a space and ellipsis appended. -/
def ebAutoExcerpt (text : String) : String :=
  let description := strTake text 50
  let indexOfLastSpace := jsLastIndexOf description ' '
  let indexOfLastFullStop := jsLastIndexOf description '.'
  let elideFrom :=
    if indexOfLastFullStop > indexOfLastSpace then indexOfLastFullStop
    else indexOfLastSpace
  jsSliceTo description elideFrom ++ " …"

/-- The description actually stored: the argument when truthy, the
auto-derived excerpt otherwise. -/
def ebDeriveDescription (element : EbElement) (descArg : Option String) :
    String :=
  match descArg with
  | some d => if d != "" then d else ebAutoExcerpt element.innerText
  | none => ebAutoExcerpt element.innerText

/-- Lines 489-506: the storage key.  lastLocation keys carry the session
identifier; every other type yields a type-only key. -/
def ebBookmarkKey (slug : String) (btype : String) (cur : Nat) : String :=
  if btype == "lastLocation" then
    "bookmark-" ++ slug ++ "-" ++ btype ++ "-" ++ toString cur
  else
    "bookmark-" ++ slug ++ "-" ++ btype

/-- ebBookmarksSetBookmark: build the record (sessionDate is the current
session identifier, established at init), derive the key with the
external ebSlugify collaborator, store it, and rerun
ebBookmarksCheckForBookmarks.  Returns the stored record and the final
storage. -/
def ebBookmarksSetBookmark (cur : Nat) (slugify : String → String)
    (page : EbPage) (btype : String) (element : EbElement)
    (descArg : Option String) (st : EbStorage) : EbBookmark × EbStorage :=
  let description := ebDeriveDescription element descArg
  let elemID := ebBookmarksElementID page element
  let bookTitle := page.bodyDataTitle
  let k := ebBookmarkKey (slugify bookTitle) btype cur
  let bookmark : EbBookmark :=
    { key := k
      sessionDate := cur
      type := btype
      bookTitle := bookTitle
      pageTitle := page.docTitle
      description := description
      id := elemID
      fingerprint := element.fingerprint
      location := strBeforeChar page.href '#' ++ "#" ++ elemID }
  let st1 := ebSetItem st k bookmark
  (bookmark, (ebBookmarksCheckForBookmarks cur st1).2)

/-! ### DOMReconciler: ebBookmarksMarkBookmarks (lines 202-232) -/

/-- ebBookmarksCheckForCurrentPage (lines 190-199): both URLs with their
fragment stripped must coincide (the JS function returns true or
undefined). -/
def ebBookmarksCheckForCurrentPage (pageHref : String) (url : String) :
    Bool :=
  strBeforeChar pageHref '#' == strBeforeChar url '#'

/-- The bookmark-relevant attribute state of a document element:
data-bookmarked, the title attribute, and data-bookmark-type. -/
structure EbMarkedElem where
  id : String
  bookmarked : Bool
  titleAttr : Option String
  bookmarkType : Option String
deriving DecidableEq

abbrev EbMarkedDoc := List EbMarkedElem

/-- setAttribute on the element document.getElementById(bookmark.id)
returned: the first element with that id is rewritten.  Invoked only
after the lookup succeeded; the null case (where the source's
setAttribute throws) is handled in ebApplyBookmarkMark. -/
def ebUpdateElem (doc : EbMarkedDoc) (i : String)
    (f : EbMarkedElem → EbMarkedElem) : EbMarkedDoc :=
  match doc with
  | [] => []
  | e :: es => if e.id == i then f e :: es else e :: ebUpdateElem es i f

def ebFindElem (doc : EbMarkedDoc) (i : String) : Option EbMarkedElem :=
  doc.find? (fun e => e.id == i)

/-- Outcome of the marking pass: the source's forEach either runs to
completion, or is aborted by the TypeError thrown at line 218 when
document.getElementById(bookmark.id) returned null and setAttribute is
called on it.  The attribute mutations applied before the throw
persist, so the aborted case carries the document as mutated so far. -/
inductive EbMarkResult where
  | ok (doc : EbMarkedDoc)
  | thrown (doc : EbMarkedDoc)
deriving DecidableEq

/-- The body of the bookmarks.forEach loop (lines 212-231): fetch the
element for the bookmark's id; when the bookmark's location is on the
current page, mark that element, set its title to the description, and
set data-bookmark-type to the bookmark's type unless the element is
already marked userBookmark (user bookmarks trump last locations).
When no element carries the id, the setAttribute call dereferences null
and throws, aborting the pass with the document unchanged by this
record.  The accompanying ebBookmarksToggleButtonOnElement call only
manages the button icon and is not part of the attribute state. -/
def ebApplyBookmarkMark (pageHref : String) (doc : EbMarkedDoc)
    (b : EbBookmark) : EbMarkResult :=
  if ebBookmarksCheckForCurrentPage pageHref b.location then
    match ebFindElem doc b.id with
    | some _ =>
      .ok (ebUpdateElem doc b.id (fun e =>
        { e with
          bookmarked := true
          titleAttr := some b.description
          bookmarkType :=
            if e.bookmarkType == some "userBookmark" then some "userBookmark"
            else some b.type }))
    | none => .thrown doc
  else .ok doc

/-- The forEach over the record list, stopping at a thrown TypeError. -/
def ebMarkFoldCrash (pageHref : String) :
    List EbBookmark → EbMarkedDoc → EbMarkResult
  | [], d => .ok d
  | b :: bs, d =>
    match ebApplyBookmarkMark pageHref d b with
    | .ok d2 => ebMarkFoldCrash pageHref bs d2
    | .thrown d2 => .thrown d2

/-- ebBookmarksMarkBookmarks: clear data-bookmarked everywhere (the
data-bookmark-type attribute is left in place, as in the source), then
apply every bookmark in list order, propagating an abort. -/
def ebBookmarksMarkBookmarks (pageHref : String)
    (bookmarks : List EbBookmark) (doc : EbMarkedDoc) : EbMarkResult :=
  ebMarkFoldCrash pageHref bookmarks
    (doc.map (fun e => { e with bookmarked := false }))

/-! ### Spec-side definition for the description excerpt

Modelled from the spec for comparison with the code path: the first 50
characters of the target element's text, truncated at the last space or
sentence boundary, whichever is later (that is, at the last character
that is a space or a full stop), suffixed with the ellipsis string; when
no such boundary occurs the final character is dropped (the amended
reading forced by the JS slice(0, -1)). -/
def ebSpecExcerpt (text : String) : String :=
  let f := strTake text 50
  let j := chLastIdx (fun c => c == ' ' || c == '.') f.data
  (if j ≥ 0 then strTake f j.toNat else strTake f (f.length - 1)) ++ " …"

/-! ### Concrete fixtures used by the concrete theorems and witnesses -/

/-- A canonical lastLocation record for book title t and session d, as
ebBookmarksSetBookmark would store it. -/
def exLLRec (d : Nat) : EbBookmark :=
  { key := "bookmark-t-lastLocation-" ++ toString d
    sessionDate := d
    type := "lastLocation"
    bookTitle := "t"
    pageTitle := "p"
    description := "desc"
    id := "e1"
    fingerprint := none
    location := "https://site/page#e1" }

/-- The storage entry holding exLLRec d. -/
def exLL (d : Nat) : String × EbBookmark :=
  ("bookmark-t-lastLocation-" ++ toString d, exLLRec d)

/-- A canonical userBookmark record for book title t. -/
def exUB : EbBookmark :=
  { key := "bookmark-t-userBookmark"
    sessionDate := 50
    type := "userBookmark"
    bookTitle := "t"
    pageTitle := "p"
    description := "desc"
    id := "e1"
    fingerprint := none
    location := "https://site/page#e1" }

/-- The storage entry holding exUB. -/
def exUBEntry : String × EbBookmark := ("bookmark-t-userBookmark", exUB)

/-- A userBookmark record targeting element sec-1 of the current page. -/
def exMarkUB : EbBookmark :=
  { key := "bookmark-t-userBookmark"
    sessionDate := 200
    type := "userBookmark"
    bookTitle := "t"
    pageTitle := "p"
    description := "du"
    id := "sec-1"
    fingerprint := none
    location := "https://site/page#sec-1" }

/-- A lastLocation record targeting element sec-1 of the current page. -/
def exMarkLL : EbBookmark :=
  { key := "bookmark-t-lastLocation-100"
    sessionDate := 100
    type := "lastLocation"
    bookTitle := "t"
    pageTitle := "p"
    description := "dl"
    id := "sec-1"
    fingerprint := none
    location := "https://site/page#sec-1" }

/-- A current-page record whose target id resolves to no element on the
page (a drifted bookmark): marking it dereferences null and throws. -/
def exMarkDead : EbBookmark :=
  { key := "bookmark-t-lastLocation-150"
    sessionDate := 150
    type := "lastLocation"
    bookTitle := "t"
    pageTitle := "p"
    description := "dg"
    id := "ghost"
    fingerprint := none
    location := "https://site/page#ghost" }

/-- A one-element document holding the unmarked element sec-1. -/
def exMarkDoc : EbMarkedDoc :=
  [{ id := "sec-1", bookmarked := false, titleAttr := none,
     bookmarkType := none }]

/-- The document state at the abort of the crashing marking pass:
sec-1 carries the lastLocation marking applied before the throw. -/
def exMarkDocLL : EbMarkedDoc :=
  [{ id := "sec-1", bookmarked := true, titleAttr := some "dl",
     bookmarkType := some "lastLocation" }]

/-! ### C1 / C7: the retention bug of ebBookmarksCleanLastLocations -/

/-- C1 (code bug).  The claim says pruning retains the two most recent
records by session timestamp — here, with three prior-session records
stored in iteration order 300, 100, 200 and current session 999, the
record with sessionDate 300 is the most recent and should survive.  The
code slices to the last two stored records before sorting, so it deletes
the 300 record and retains only the 200 one. -/
theorem ebCleanLastLocations_dropsMostRecent_bug :
    ebBookmarksCleanLastLocations "t" 999 [exLL 300, exLL 100, exLL 200]
        = [exLL 200]
      ∧ exLL 300 ∈ [exLL 300, exLL 100, exLL 200]
      ∧ exLL 300 ∉ ebBookmarksCleanLastLocations "t" 999
          [exLL 300, exLL 100, exLL 200] := by
  decide

/-- C7 (code bug).  The claim says a current-session lastLocation record
survives the loadAll pipeline in storage. With the current session's
record (sessionDate 999) stored first and two prior-session records
after it, the pre-sort slice discards the current-session record and the
pipeline deletes it from storage. -/
theorem ebCheckForBookmarks_currentSessionDeleted_bug :
    exLL 999 ∈ [exLL 999, exLL 100, exLL 200]
      ∧ (exLLRec 999).sessionDate = 999
      ∧ exLL 999 ∉
          (ebBookmarksCheckForBookmarks 999 [exLL 999, exLL 100, exLL 200]).2 := by
  decide

/-! ### C3: session identifier stability -/

/-- C3 (confirmed).  ebBookmarksSessionDate creates and persists the
current timestamp on first call in a tab session, and every repeated
call (at any later timestamp) returns that same identifier without
changing session storage. -/
theorem ebBookmarksSessionDate_stable (now later : Nat) (ss : Option Nat) :
    ebBookmarksSessionDate now none = (now, some now)
      ∧ ebBookmarksSessionDate later (ebBookmarksSessionDate now ss).2
          = ((ebBookmarksSessionDate now ss).1,
             (ebBookmarksSessionDate now ss).2) := by
  refine ⟨rfl, ?_⟩
  cases ss <;> rfl

/-! ### C2: the counterexample to unconditional idempotence -/

/-- C2 (counterexample).  With lastLocation records for sessions 123, 5
and 12 (current session 999), the first clean retains the records with
sessionDate 123 and 12 — the 123 key survives only because it contains
the digits 12 of the kept record — and a second clean then deletes the
12 record, so the pruning operation is not idempotent as claimed. -/
theorem ebCleanLastLocations_not_idempotent_cex :
    ebBookmarksCleanLastLocations "t" 999
        (ebBookmarksCleanLastLocations "t" 999 [exLL 123, exLL 5, exLL 12])
      ≠ ebBookmarksCleanLastLocations "t" 999 [exLL 123, exLL 5, exLL 12] := by
  decide

/-! ### C5: the counterexample to the delete-exactly-one claim -/

/-- C5 (counterexample).  Deleting the userBookmark record from a
storage that still holds three prior-session lastLocation records also
deletes the lastLocation entries for sessions 300 and 100 through the
reconciliation pass, so deleteBookmark does not leave every other
storage entry unchanged. -/
theorem ebDeleteBookmark_extraDeletion_cex :
    exLL 300 ∈ [exLL 300, exLL 100, exLL 200, exUBEntry]
      ∧ (exLL 300).1 ≠ exUB.key
      ∧ exLL 300 ∉ ebBookmarksDeleteBookmark 999 exUB
          [exLL 300, exLL 100, exLL 200, exUBEntry] := by
  decide

/-! ### C8: the counterexample to the as-stated description claim -/

/-- C8 (counterexample).  Supplying the empty string as the description
argument does not store the empty string: the falsy check replaces it
with the auto-derived excerpt. -/
theorem ebDescription_emptyString_cex :
    ebDeriveDescription
        { id := "e1", innerText := "Hello world. More text here",
          fingerprint := none } (some "") ≠ "" := by
  decide

/-! ### Frame lemmas for the cleaning passes -/

/-- An entry whose key lacks the bookmark prefix or the lastLocation
segment is never a lastLocation entry, whatever the title. -/
theorem ebIsLastLocationEntry_eq_false (title : String)
    (e : String × EbBookmark)
    (h : (strStarts e.1 "bookmark-" && strIncludes e.1 "-lastLocation-")
          = false) :
    ebIsLastLocationEntry title e = false := by
  cases hS : strStarts e.1 "bookmark-" <;>
    cases hI : strIncludes e.1 "-lastLocation-" <;>
      simp_all [ebIsLastLocationEntry]

/-- Cleaning commutes away under any filter that only keeps entries the
clean never touches. -/
theorem ebCleanLastLocations_filter (title : String) (cur : Nat)
    (st : EbStorage) (p : String × EbBookmark → Bool)
    (hp : ∀ e, p e = true → ebIsLastLocationEntry title e = false) :
    (ebBookmarksCleanLastLocations title cur st).filter p = st.filter p := by
  simp only [ebBookmarksCleanLastLocations]
  rw [List.filter_filter]
  apply List.filter_congr
  intro e _
  by_cases h : p e = true
  · have h2 := hp e h
    simp [h, h2]
  · have h2 : p e = false := by
      cases h3 : p e
      · rfl
      · exact absurd h3 h
    simp [h2]

/-- Clean only ever deletes entries; it never adds or reorders. -/
theorem ebCleanLastLocations_sublist (title : String) (cur : Nat)
    (st : EbStorage) :
    (ebBookmarksCleanLastLocations title cur st).Sublist st :=
  List.filter_sublist st

/-- Membership of an entry the clean never touches is preserved. -/
theorem ebCleanLastLocations_keeps (title : String) (cur : Nat)
    (st : EbStorage) (e : String × EbBookmark) (he : e ∈ st)
    (h : ebIsLastLocationEntry title e = false) :
    e ∈ ebBookmarksCleanLastLocations title cur st := by
  simp only [ebBookmarksCleanLastLocations]
  exact List.mem_filter.mpr ⟨he, by simp [h]⟩

/-- The housekeeping fold only ever deletes entries. -/
theorem ebCleanFold_sublist (cur : Nat) (ks : List String) (s : EbStorage) :
    (ebCleanFold cur ks s).Sublist s := by
  induction ks generalizing s with
  | nil => exact List.Sublist.refl s
  | cons k ks ih =>
    simp only [ebCleanFold]
    cases h : ebGetItem s k with
    | none => simpa [h] using ih s
    | some r =>
      simp only [h]
      exact (ih _).trans (ebCleanLastLocations_sublist r.bookTitle cur s)

/-- The housekeeping fold preserves every entry whose key lacks the
bookmark prefix or the lastLocation segment. -/
theorem ebCleanFold_keeps (cur : Nat) (ks : List String) (s : EbStorage)
    (e : String × EbBookmark) (he : e ∈ s)
    (h : (strStarts e.1 "bookmark-" && strIncludes e.1 "-lastLocation-")
          = false) :
    e ∈ ebCleanFold cur ks s := by
  induction ks generalizing s with
  | nil => exact he
  | cons k ks ih =>
    simp only [ebCleanFold]
    cases hg : ebGetItem s k with
    | none => exact ih s he
    | some r =>
      exact ih _ (ebCleanLastLocations_keeps r.bookTitle cur s e he
        (ebIsLastLocationEntry_eq_false r.bookTitle e h))

/-! ### C10: the frame property of ebBookmarksCleanLastLocations -/

/-- C10 (confirmed).  The pruning operation only deletes entries: the
result is a sublist of the storage; every entry whose key lacks the
bookmark prefix or the lastLocation segment, or whose record's bookTitle
differs from the cleaned title, is preserved exactly (so every
userBookmark record stored under its type-only key, every record of a
different book title and every non-bookmark storage entry is unchanged);
and every deleted entry is a lastLocation entry of the given title. -/
theorem ebCleanLastLocations_frame (title : String) (cur : Nat)
    (st : EbStorage) :
    (ebBookmarksCleanLastLocations title cur st).Sublist st
      ∧ (ebBookmarksCleanLastLocations title cur st).filter
            (fun e => !(ebIsLastLocationEntry title e))
          = st.filter (fun e => !(ebIsLastLocationEntry title e))
      ∧ (∀ e, e ∈ st → e ∉ ebBookmarksCleanLastLocations title cur st →
          ebIsLastLocationEntry title e = true) := by
  refine ⟨ebCleanLastLocations_sublist title cur st, ?_, ?_⟩
  · apply ebCleanLastLocations_filter
    intro e he
    cases h : ebIsLastLocationEntry title e
    · rfl
    · simp [h] at he
  · intro e he hno
    cases h : ebIsLastLocationEntry title e
    · exact absurd (ebCleanLastLocations_keeps title cur st e he h) hno
    · rfl

/-- Witness for C10: in a concrete prune that deletes entries, a deleted
entry is certified to be a lastLocation entry of the cleaned title. -/
theorem ebCleanLastLocations_frame_witness :
    ebIsLastLocationEntry "t" (exLL 100) = true :=
  (ebCleanLastLocations_frame "t" 999 [exLL 300, exLL 100, exLL 200]).2.2
    (exLL 100) (by decide) (by decide)

/-! ### C5 (amended): the frame property of ebBookmarksDeleteBookmark -/

/-- C5 (corrected, amended claim).  deleteBookmark removes the entry at
record.key; the reconciliation pass it triggers may additionally delete
entries, but only lastLocation-shaped ones (keys with the bookmark
prefix and the lastLocation segment): no entry is ever added, and every
other entry — in particular every userBookmark entry and every
non-bookmark storage entry — survives. -/
theorem ebDeleteBookmark_frame (cur : Nat) (b : EbBookmark)
    (st : EbStorage) :
    (∀ e, e ∈ ebBookmarksDeleteBookmark cur b st → e.1 ≠ b.key)
      ∧ (ebBookmarksDeleteBookmark cur b st).Sublist st
      ∧ (∀ e, e ∈ st → e.1 ≠ b.key →
          (strStarts e.1 "bookmark-" && strIncludes e.1 "-lastLocation-")
            = false →
          e ∈ ebBookmarksDeleteBookmark cur b st) := by
  have hdef : ebBookmarksDeleteBookmark cur b st
      = ebCleanFold cur
          (((ebRemoveItem st b.key).map (fun e => e.1)).filter
            (fun k => strStarts k "bookmark-"))
          (ebRemoveItem st b.key) := rfl
  refine ⟨?_, ?_, ?_⟩
  · intro e he
    rw [hdef] at he
    have h1 : e ∈ ebRemoveItem st b.key :=
      (ebCleanFold_sublist cur _ _).subset he
    have h2 := (List.mem_filter.mp h1).2
    simpa using h2
  · rw [hdef]
    exact (ebCleanFold_sublist cur _ _).trans (List.filter_sublist st)
  · intro e he hk hcond
    rw [hdef]
    apply ebCleanFold_keeps _ _ _ _ _ hcond
    exact List.mem_filter.mpr ⟨he, by simpa using hk⟩

/-- Witness for C5: deleting a lastLocation record leaves the
userBookmark entry of the same title in place. -/
theorem ebDeleteBookmark_frame_witness :
    exUBEntry ∈ ebBookmarksDeleteBookmark 999 (exLLRec 100)
      [exLL 100, exUBEntry] :=
  (ebDeleteBookmark_frame 999 (exLLRec 100) [exLL 100, exUBEntry]).2.2
    exUBEntry (by decide) (by decide) (by decide)

/-! ### C6: drift resolution cases -/

/-- C6 (confirmed).  ebBookmarksFingerprintID: with no element for the
identifier, a missing (or empty, hence falsy) data-fingerprint, or no
index in session storage, the result is not-found; when the indexed
identifier for the element's fingerprint differs from the live
identifier the user-visible warning is raised and the bookmark is left
unverified; when it matches, the identifier is returned as verified. -/
theorem ebFingerprintID_cases (doc : EbDocument)
    (index : Option (List (String × String))) (eid : String) :
    (ebGetElementById doc eid = none →
        ebBookmarksFingerprintID doc index eid = .notFound)
      ∧ (∀ el, ebGetElementById doc eid = some el →
          (el.fingerprint = none ∨ el.fingerprint = some "" ∨ index = none) →
          ebBookmarksFingerprintID doc index eid = .notFound)
      ∧ (∀ el idx fp, ebGetElementById doc eid = some el →
          index = some idx → el.fingerprint = some fp → fp ≠ "" →
          ((idx.find? (fun p => p.1 == fp)).map (fun p => p.2) ≠ some eid →
            ebBookmarksFingerprintID doc index eid = .mismatchWarned)
          ∧ ((idx.find? (fun p => p.1 == fp)).map (fun p => p.2) = some eid →
            ebBookmarksFingerprintID doc index eid = .verified eid)) := by
  refine ⟨?_, ?_, ?_⟩
  · intro h
    simp [ebBookmarksFingerprintID, h]
  · intro el hel hcases
    rcases hcases with h | h | h
    · cases index <;> simp [ebBookmarksFingerprintID, hel, h]
    · cases index <;> simp [ebBookmarksFingerprintID, hel, h]
    · cases el.fingerprint <;> simp [ebBookmarksFingerprintID, hel, h]
  · intro el idx fp hel hidx hfp hne
    constructor
    · intro hmis
      simp [ebBookmarksFingerprintID, hel, hidx, hfp, hne, hmis]
    · intro hmatch
      simp [ebBookmarksFingerprintID, hel, hidx, hfp, hne, hmatch]

/-- Witness for C6: a concrete drifted document (fingerprint abc indexed
to sec-3, live element now sec-9) yields the mismatch warning. -/
theorem ebFingerprintID_cases_witness :
    ebBookmarksFingerprintID
        [{ id := "sec-9", innerText := "body", fingerprint := some "abc" }]
        (some [("abc", "sec-3")]) "sec-9"
      = .mismatchWarned :=
  (((ebFingerprintID_cases
      [{ id := "sec-9", innerText := "body", fingerprint := some "abc" }]
      (some [("abc", "sec-3")]) "sec-9").2.2
    { id := "sec-9", innerText := "body", fingerprint := some "abc" }
    [("abc", "sec-3")] "abc" (by decide) rfl (by decide) (by decide)).1
    (by decide))

/-! ### C9: userBookmark precedence in ebBookmarksMarkBookmarks -/

/-- Updating the first element with one id leaves lookups of a different
id unchanged, provided the update preserves the id. -/
theorem ebFindElem_update_ne (doc : EbMarkedDoc) (i j : String)
    (f : EbMarkedElem → EbMarkedElem) (hf : ∀ e, (f e).id = e.id)
    (hij : j ≠ i) :
    ebFindElem (ebUpdateElem doc i f) j = ebFindElem doc j := by
  induction doc with
  | nil => rfl
  | cons e es ih =>
    simp only [ebUpdateElem]
    by_cases hei : (e.id == i) = true
    · have heq : e.id = i := by simpa using hei
      have hj : (e.id == j) = false := by
        simp [heq]
        exact fun h => hij h.symm
      have hj2 : ((f e).id == j) = false := by rw [hf]; exact hj
      simp [ebFindElem, List.find?, hei, hj, hj2]
    · have hei2 : (e.id == i) = false := by
        cases h : e.id == i
        · rfl
        · exact absurd h hei
      by_cases hej : (e.id == j) = true
      · simp [ebFindElem, List.find?, hei2, hej]
      · have hej2 : (e.id == j) = false := by
          cases h : e.id == j
          · rfl
          · exact absurd h hej
        simpa [ebFindElem, List.find?, hei2, hej2] using ih

/-- Updating the first element with an id rewrites exactly the element a
lookup of that id returns. -/
theorem ebFindElem_update_eq (doc : EbMarkedDoc) (i : String)
    (f : EbMarkedElem → EbMarkedElem) (hf : ∀ e, (f e).id = e.id)
    (e0 : EbMarkedElem) (h : ebFindElem doc i = some e0) :
    ebFindElem (ebUpdateElem doc i f) i = some (f e0) := by
  induction doc with
  | nil => simp [ebFindElem, List.find?] at h
  | cons e es ih =>
    simp only [ebUpdateElem]
    by_cases hei : (e.id == i) = true
    · have h0 : e0 = e := by
        simp [ebFindElem, List.find?, hei] at h
        exact h.symm
      have hfi : ((f e).id == i) = true := by rw [hf]; exact hei
      have heq : e.id = i := by simpa using hei
      simp [ebFindElem, List.find?, heq, hfi, h0]
    · have hei2 : (e.id == i) = false := by
        cases hx : e.id == i
        · rfl
        · exact absurd hx hei
      simp only [ebFindElem, List.find?, hei2] at h
      simpa [ebFindElem, List.find?, hei2] using ih h

/-- Updating the first element with an id never changes which ids
resolve to an element, provided the update preserves the id. -/
theorem ebFindElem_update_isSome (doc : EbMarkedDoc) (i j : String)
    (f : EbMarkedElem → EbMarkedElem) (hf : ∀ e, (f e).id = e.id) :
    (ebFindElem (ebUpdateElem doc i f) j).isSome
      = (ebFindElem doc j).isSome := by
  induction doc with
  | nil => rfl
  | cons e es ih =>
    simp only [ebUpdateElem]
    by_cases hei : (e.id == i) = true
    · have hfj : ((f e).id == j) = (e.id == j) := by rw [hf]
      cases hej : (e.id == j) with
      | true =>
        have hfj2 : ((f e).id == j) = true := by rw [hfj, hej]
        simp [ebFindElem, List.find?, hei, hej, hfj2]
      | false =>
        have hfj2 : ((f e).id == j) = false := by rw [hfj, hej]
        simp [ebFindElem, List.find?, hei, hej, hfj2]
    · have hei2 : (e.id == i) = false := by
        cases hx : e.id == i
        · rfl
        · exact absurd hx hei
      cases hej : (e.id == j) with
      | true => simp [ebFindElem, List.find?, hei2, hej]
      | false => simpa [ebFindElem, List.find?, hei2, hej] using ih

/-- The per-bookmark update of ebBookmarksMarkBookmarks preserves ids. -/
theorem ebMarkUpdate_id (b : EbBookmark) (e : EbMarkedElem) :
    ({ e with
        bookmarked := true
        titleAttr := some b.description
        bookmarkType :=
          if e.bookmarkType == some "userBookmark" then some "userBookmark"
          else some b.type } : EbMarkedElem).id = e.id := rfl

/-- Lookups commute with the initial clearing pass. -/
theorem ebFindElem_clear (doc : EbMarkedDoc) (i : String) :
    ebFindElem (doc.map (fun e => { e with bookmarked := false })) i
      = (ebFindElem doc i).map (fun e => { e with bookmarked := false }) := by
  induction doc with
  | nil => rfl
  | cons e es ih =>
    by_cases he : (e.id == i) = true
    · simp [ebFindElem, List.find?, he]
    · have he2 : (e.id == i) = false := by
        cases hx : e.id == i
        · rfl
        · exact absurd hx he
      simpa [ebFindElem, List.find?, he2] using ih

/-- Applying one bookmark whose target exists (whenever it is on the
current page) completes without throwing and keeps every id resolving
as before. -/
theorem ebApplyBookmarkMark_ok (pageHref : String) (doc : EbMarkedDoc)
    (b : EbBookmark)
    (hres : ebBookmarksCheckForCurrentPage pageHref b.location = true →
      (ebFindElem doc b.id).isSome = true) :
    ∃ d2, ebApplyBookmarkMark pageHref doc b = .ok d2
      ∧ ∀ j, (ebFindElem d2 j).isSome = (ebFindElem doc j).isSome := by
  simp only [ebApplyBookmarkMark]
  by_cases hcp : ebBookmarksCheckForCurrentPage pageHref b.location = true
  · rw [if_pos hcp]
    have hsome := hres hcp
    cases hfind : ebFindElem doc b.id with
    | none =>
      rw [hfind] at hsome
      simp at hsome
    | some e0 =>
      exact ⟨_, rfl, fun j =>
        ebFindElem_update_isSome doc b.id j _ (fun e => ebMarkUpdate_id b e)⟩
  · rw [if_neg hcp]
    exact ⟨doc, rfl, fun j => rfl⟩

/-- An apply step that completed preserves an element already marked as
a user bookmark. -/
theorem ebApplyBookmarkMark_ok_preserves_user (pageHref : String)
    (doc : EbMarkedDoc) (b : EbBookmark) (i : String) (e0 : EbMarkedElem)
    (h : ebFindElem doc i = some e0)
    (hu : e0.bookmarkType = some "userBookmark")
    (d2 : EbMarkedDoc)
    (hok : ebApplyBookmarkMark pageHref doc b = .ok d2) :
    ∃ e1, ebFindElem d2 i = some e1
      ∧ e1.bookmarkType = some "userBookmark" := by
  simp only [ebApplyBookmarkMark] at hok
  by_cases hcp : ebBookmarksCheckForCurrentPage pageHref b.location = true
  · rw [if_pos hcp] at hok
    cases hfind : ebFindElem doc b.id with
    | none =>
      rw [hfind] at hok
      simp at hok
    | some ef =>
      rw [hfind] at hok
      simp only [EbMarkResult.ok.injEq] at hok
      subst hok
      by_cases hbi : i = b.id
      · subst hbi
        refine ⟨_, ebFindElem_update_eq doc b.id _
          (fun e => ebMarkUpdate_id b e) e0 h, ?_⟩
        simp [hu]
      · rw [ebFindElem_update_ne doc b.id i _
          (fun e => ebMarkUpdate_id b e) hbi]
        exact ⟨e0, h, hu⟩
  · rw [if_neg hcp] at hok
    simp only [EbMarkResult.ok.injEq] at hok
    subst hok
    exact ⟨e0, h, hu⟩

/-- Applying a userBookmark record that targets a present element on
the current page completes and marks that element as a user bookmark. -/
theorem ebApplyBookmarkMark_sets_user (pageHref : String)
    (doc : EbMarkedDoc) (b : EbBookmark)
    (hb : b.type = "userBookmark")
    (hcp : ebBookmarksCheckForCurrentPage pageHref b.location = true)
    (e0 : EbMarkedElem) (h : ebFindElem doc b.id = some e0) :
    ∃ d2 e1, ebApplyBookmarkMark pageHref doc b = .ok d2
      ∧ ebFindElem d2 b.id = some e1
      ∧ e1.bookmarkType = some "userBookmark" := by
  have happ : ebApplyBookmarkMark pageHref doc b
      = .ok (ebUpdateElem doc b.id (fun e =>
          { e with
            bookmarked := true
            titleAttr := some b.description
            bookmarkType :=
              if e.bookmarkType == some "userBookmark" then some "userBookmark"
              else some b.type })) := by
    simp only [ebApplyBookmarkMark]
    rw [if_pos hcp, h]
  refine ⟨_, _, happ, ebFindElem_update_eq doc b.id _
    (fun e => ebMarkUpdate_id b e) e0 h, ?_⟩
  by_cases hu : e0.bookmarkType = some "userBookmark"
  · simp [hu]
  · have hu2 : (e0.bookmarkType == some "userBookmark") = false := by
      cases hx : e0.bookmarkType == some "userBookmark"
      · rfl
      · exact absurd (by simpa using hx) hu
    simp [hu2, hb]

/-- When every current-page record of the list targets a present
element, the marking fold completes and keeps every id resolving as
before. -/
theorem ebMarkFoldCrash_ok (pageHref : String) (l : List EbBookmark)
    (d : EbMarkedDoc)
    (hres : ∀ b ∈ l,
      ebBookmarksCheckForCurrentPage pageHref b.location = true →
      (ebFindElem d b.id).isSome = true) :
    ∃ d2, ebMarkFoldCrash pageHref l d = .ok d2
      ∧ ∀ j, (ebFindElem d2 j).isSome = (ebFindElem d j).isSome := by
  induction l generalizing d with
  | nil => exact ⟨d, rfl, fun j => rfl⟩
  | cons b bs ih =>
    obtain ⟨d1, hok1, hsame1⟩ := ebApplyBookmarkMark_ok pageHref d b
      (fun hcp => hres b (by simp) hcp)
    obtain ⟨d2, hok2, hsame2⟩ := ih d1 (fun b2 hb2 hcp => by
      rw [hsame1]
      exact hres b2 (by simp [hb2]) hcp)
    refine ⟨d2, ?_, fun j => (hsame2 j).trans (hsame1 j)⟩
    simp only [ebMarkFoldCrash, hok1]
    exact hok2

/-- When every current-page record targets a present element, the
marking fold completes and preserves a user-bookmark marking. -/
theorem ebMarkFoldCrash_preserves_user (pageHref : String)
    (l : List EbBookmark) (d : EbMarkedDoc) (i : String)
    (e0 : EbMarkedElem)
    (hres : ∀ b ∈ l,
      ebBookmarksCheckForCurrentPage pageHref b.location = true →
      (ebFindElem d b.id).isSome = true)
    (h : ebFindElem d i = some e0)
    (hu : e0.bookmarkType = some "userBookmark") :
    ∃ d2 e1, ebMarkFoldCrash pageHref l d = .ok d2
      ∧ ebFindElem d2 i = some e1
      ∧ e1.bookmarkType = some "userBookmark" := by
  induction l generalizing d e0 with
  | nil => exact ⟨d, e0, rfl, h, hu⟩
  | cons b bs ih =>
    obtain ⟨d1, hok1, hsame1⟩ := ebApplyBookmarkMark_ok pageHref d b
      (fun hcp => hres b (by simp) hcp)
    obtain ⟨e1, hfind1, hu1⟩ :=
      ebApplyBookmarkMark_ok_preserves_user pageHref d b i e0 h hu d1 hok1
    obtain ⟨d2, e2, hok2, hfind2, hu2⟩ := ih d1 e1
      (fun b2 hb2 hcp => by
        rw [hsame1]
        exact hres b2 (by simp [hb2]) hcp)
      hfind1 hu1
    refine ⟨d2, e2, ?_, hfind2, hu2⟩
    simp only [ebMarkFoldCrash, hok1]
    exact hok2

/-- A completed prefix of the fold composes with the rest. -/
theorem ebMarkFoldCrash_append (pageHref : String)
    (l1 l2 : List EbBookmark) (d d1 : EbMarkedDoc)
    (h : ebMarkFoldCrash pageHref l1 d = .ok d1) :
    ebMarkFoldCrash pageHref (l1 ++ l2) d
      = ebMarkFoldCrash pageHref l2 d1 := by
  induction l1 generalizing d with
  | nil =>
    simp only [ebMarkFoldCrash, EbMarkResult.ok.injEq] at h
    rw [List.nil_append, h]
  | cons b bs ih =>
    simp only [List.cons_append, ebMarkFoldCrash] at h ⊢
    cases happ : ebApplyBookmarkMark pageHref d b with
    | ok dx =>
      rw [happ] at h
      exact ih dx h
    | thrown dx =>
      rw [happ] at h
      exact EbMarkResult.noConfusion h

/-- C9 (counterexample).  With the lastLocation record for sec-1
processed first, then a current-page record whose id resolves to no
element, then the userBookmark record for sec-1, the marking pass
throws the TypeError of line 218 before reaching the userBookmark
record: the pass aborts and the element is left marked lastLocation,
although a userBookmark record for it is in the list. -/
theorem ebMarkBookmarks_crash_cex :
    exMarkUB ∈ [exMarkLL, exMarkDead, exMarkUB]
      ∧ exMarkUB.type = "userBookmark"
      ∧ exMarkUB.id = "sec-1"
      ∧ ebBookmarksCheckForCurrentPage "https://site/page" exMarkUB.location
          = true
      ∧ exMarkLL ∈ [exMarkLL, exMarkDead, exMarkUB]
      ∧ exMarkLL.type = "lastLocation"
      ∧ exMarkLL.id = "sec-1"
      ∧ ebBookmarksCheckForCurrentPage "https://site/page" exMarkLL.location
          = true
      ∧ ebBookmarksMarkBookmarks "https://site/page"
          [exMarkLL, exMarkDead, exMarkUB] exMarkDoc
        = .thrown exMarkDocLL := by
  decide

/-- C9 (corrected, amended claim).  For every record list, in any
order, provided every record on the current page targets an element
present in the document (so the pass completes instead of throwing the
TypeError of line 218): an element on the current page that is targeted
by both a userBookmark record and a lastLocation record ends the
marking pass with data-bookmark-type equal to userBookmark — the user
bookmark takes precedence over the last location marker. -/
theorem ebMarkBookmarks_userPrecedence (pageHref : String)
    (bookmarks : List EbBookmark) (doc : EbMarkedDoc) (eid : String)
    (e0 : EbMarkedElem) (hdoc : ebFindElem doc eid = some e0)
    (hres : ∀ b ∈ bookmarks,
      ebBookmarksCheckForCurrentPage pageHref b.location = true →
      (ebFindElem doc b.id).isSome = true)
    (hub : ∃ b, b ∈ bookmarks ∧ b.type = "userBookmark" ∧ b.id = eid
      ∧ ebBookmarksCheckForCurrentPage pageHref b.location = true)
    (_hll : ∃ b, b ∈ bookmarks ∧ b.type = "lastLocation" ∧ b.id = eid
      ∧ ebBookmarksCheckForCurrentPage pageHref b.location = true) :
    ∃ d1 e1, ebBookmarksMarkBookmarks pageHref bookmarks doc = .ok d1
      ∧ ebFindElem d1 eid = some e1
      ∧ e1.bookmarkType = some "userBookmark" := by
  obtain ⟨b, hmem, hbtype, hbid, hcp⟩ := hub
  obtain ⟨l1, l2, hsplit⟩ := List.append_of_mem hmem
  subst hsplit
  have hclear : ebFindElem
      (doc.map (fun e => { e with bookmarked := false })) eid
      = some { e0 with bookmarked := false } := by
    rw [ebFindElem_clear, hdoc]
    rfl
  have hsame0 : ∀ j,
      (ebFindElem (doc.map (fun e => { e with bookmarked := false })) j).isSome
        = (ebFindElem doc j).isSome := by
    intro j
    rw [ebFindElem_clear]
    cases ebFindElem doc j <;> rfl
  obtain ⟨d1, hok1, hsame1⟩ := ebMarkFoldCrash_ok pageHref l1 _
    (fun b2 hb2 hcp2 => by
      rw [hsame0]
      exact hres b2 (by simp [hb2]) hcp2)
  have hsome1 : (ebFindElem d1 eid).isSome = true := by
    rw [hsame1 eid, hclear]
    rfl
  obtain ⟨e1, hfind1⟩ : ∃ e1, ebFindElem d1 eid = some e1 := by
    cases hf : ebFindElem d1 eid with
    | none =>
      rw [hf] at hsome1
      simp at hsome1
    | some x => exact ⟨x, rfl⟩
  rw [← hbid] at hfind1
  obtain ⟨d2, e2, happ, hfind2, hu2⟩ :=
    ebApplyBookmarkMark_sets_user pageHref d1 b hbtype hcp e1 hfind1
  rw [hbid] at hfind2
  have hsame2 : ∀ j, (ebFindElem d2 j).isSome = (ebFindElem d1 j).isSome := by
    intro j
    obtain ⟨d2x, hokx, hsamex⟩ := ebApplyBookmarkMark_ok pageHref d1 b
      (fun _ => by rw [hfind1]; rfl)
    rw [happ] at hokx
    simp only [EbMarkResult.ok.injEq] at hokx
    rw [hokx]
    exact hsamex j
  obtain ⟨d3, e3, hok3, hfind3, hu3⟩ :=
    ebMarkFoldCrash_preserves_user pageHref l2 d2 eid e2
      (fun b2 hb2 hcp2 => by
        rw [hsame2, hsame1, hsame0]
        exact hres b2 (by simp [hb2]) hcp2)
      hfind2 hu2
  refine ⟨d3, e3, ?_, hfind3, hu3⟩
  simp only [ebBookmarksMarkBookmarks]
  rw [ebMarkFoldCrash_append pageHref l1 (b :: l2) _ d1 hok1]
  simp only [ebMarkFoldCrash, happ]
  exact hok3

/-- Witness for C9: a concrete element targeted by a lastLocation
record first and a userBookmark record second, with every target
present, ends marked userBookmark after a completed pass. -/
theorem ebMarkBookmarks_userPrecedence_witness :
    ∃ d1 e1, ebBookmarksMarkBookmarks "https://site/page"
        [exMarkLL, exMarkUB] exMarkDoc = .ok d1
      ∧ ebFindElem d1 "sec-1" = some e1
      ∧ e1.bookmarkType = some "userBookmark" :=
  ebMarkBookmarks_userPrecedence "https://site/page" [exMarkLL, exMarkUB]
    exMarkDoc "sec-1"
    { id := "sec-1", bookmarked := false, titleAttr := none,
      bookmarkType := none }
    (by decide) (by decide)
    ⟨exMarkUB, by decide, by decide, by decide, by decide⟩
    ⟨exMarkLL, by decide, by decide, by decide, by decide⟩

/-! ### C8: the description fallback -/

/-- chLastIdx never returns anything below -1. -/
theorem chLastIdx_ge (p : Char → Bool) (l : List Char) :
    -1 ≤ chLastIdx p l := by
  induction l with
  | nil => simp [chLastIdx]
  | cons c cs ih =>
    simp only [chLastIdx]
    split_ifs <;> omega

/-- The last index of a union of character tests is the later of the two
last indexes: the code's max of two lastIndexOf calls computes the last
space-or-full-stop boundary of the spec. -/
theorem chLastIdx_or (p q : Char → Bool) (l : List Char) :
    chLastIdx (fun c => p c || q c) l
      = max (chLastIdx p l) (chLastIdx q l) := by
  induction l with
  | nil => simp [chLastIdx]
  | cons c cs ih =>
    have h1 := chLastIdx_ge p cs
    have h2 := chLastIdx_ge q cs
    simp only [chLastIdx, ih]
    split_ifs <;> (try simp_all) <;> omega

/-- The code's excerpt computation equals the spec-side excerpt. -/
theorem ebAutoExcerpt_eq_spec (text : String) :
    ebAutoExcerpt text = ebSpecExcerpt text := by
  simp only [ebAutoExcerpt, ebSpecExcerpt, jsLastIndexOf]
  have hmax := chLastIdx_or (fun x => x == ' ') (fun x => x == '.')
    (strTake text 50).data
  have hsp := chLastIdx_ge (fun x => x == ' ') (strTake text 50).data
  have hdot := chLastIdx_ge (fun x => x == '.') (strTake text 50).data
  rw [hmax]
  have helide :
      (if chLastIdx (fun x => x == '.') (strTake text 50).data
            > chLastIdx (fun x => x == ' ') (strTake text 50).data
        then chLastIdx (fun x => x == '.') (strTake text 50).data
        else chLastIdx (fun x => x == ' ') (strTake text 50).data)
      = max (chLastIdx (fun x => x == ' ') (strTake text 50).data)
          (chLastIdx (fun x => x == '.') (strTake text 50).data) := by
    split_ifs <;> omega
  rw [helide]
  set m := max (chLastIdx (fun x => x == ' ') (strTake text 50).data)
      (chLastIdx (fun x => x == '.') (strTake text 50).data) with hm
  by_cases hneg : m < 0
  · have hm1 : m = -1 := by omega
    simp only [jsSliceTo, hm1]
    norm_num
  · have hge : m ≥ 0 := by omega
    simp only [jsSliceTo]
    rw [if_neg hneg, if_pos hge]

/-- C8 (corrected, amended claim).  A supplied non-empty description is
stored verbatim; an absent or empty (falsy) description argument is
replaced by the spec excerpt: the first 50 characters of the element's
text truncated at the last space-or-full-stop boundary (dropping one
character when no boundary occurs), suffixed with a space and an
ellipsis. -/
theorem ebDescription_fallback (el : EbElement) (descArg : Option String) :
    (∀ d, descArg = some d → d ≠ "" →
        ebDeriveDescription el descArg = d)
      ∧ (descArg = none ∨ descArg = some "" →
          ebDeriveDescription el descArg = ebSpecExcerpt el.innerText) := by
  constructor
  · intro d hd hne
    subst hd
    simp [ebDeriveDescription, hne]
  · intro h
    rcases h with h | h <;> subst h <;>
      simp [ebDeriveDescription, ebAutoExcerpt_eq_spec]

/-- Witness for C8: a supplied non-empty description is stored; with no
argument the stored description is the spec excerpt. -/
theorem ebDescription_fallback_witness :
    ebDeriveDescription
        { id := "e1", innerText := "Hello world. More text here",
          fingerprint := none } (some "my note") = "my note"
      ∧ ebDeriveDescription
          { id := "e1", innerText := "Hello world. More text here",
            fingerprint := none } none
        = ebSpecExcerpt "Hello world. More text here" :=
  ⟨(ebDescription_fallback
      { id := "e1", innerText := "Hello world. More text here",
        fingerprint := none } (some "my note")).1 "my note" rfl (by decide),
   (ebDescription_fallback
      { id := "e1", innerText := "Hello world. More text here",
        fingerprint := none } none).2 (Or.inl rfl)⟩

/-! ### C2: idempotence of the pruning operation, under exact keys -/

/-- Insertion keeps exactly the elements of the extended list. -/
theorem ebInsertByDate_perm (r : EbBookmark) (l : List EbBookmark) :
    List.Perm (ebInsertByDate r l) (r :: l) := by
  induction l with
  | nil => exact List.Perm.refl _
  | cons x xs ih =>
    simp only [ebInsertByDate]
    split_ifs
    · exact List.Perm.refl _
    · exact (List.Perm.cons x ih).trans (List.Perm.swap r x xs)

/-- The sort is a permutation. -/
theorem ebSortByDate_perm (l : List EbBookmark) :
    List.Perm (ebSortByDate l) l := by
  induction l with
  | nil => exact List.Perm.refl _
  | cons x xs ih =>
    exact (ebInsertByDate_perm x (ebSortByDate xs)).trans (List.Perm.cons x ih)

/-- The kept records are drawn from the collected records. -/
theorem ebKeptOf_subset (cur : Nat) (l : List EbBookmark) :
    ∀ r ∈ ebKeptOf cur l, r ∈ l := by
  intro r hr
  simp only [ebKeptOf] at hr
  have h1 : r ∈ ebSortByDate (l.drop (l.length - 2)) := by
    split_ifs at hr
    · exact List.drop_subset 1 _ hr
    · exact hr
  have h2 : r ∈ l.drop (l.length - 2) :=
    (ebSortByDate_perm _).mem_iff.mp h1
  exact List.drop_subset _ l h2

/-- On a nonempty record list whose sessionDates all agree, the kept
list is nonempty and the common date survives. -/
theorem ebKeptOf_of_const (cur d : Nat) (l : List EbBookmark)
    (hne : l ≠ []) (hall : ∀ r ∈ l, r.sessionDate = d) :
    ebKeptOf cur l ≠ [] ∧ ∀ r ∈ ebKeptOf cur l, r.sessionDate = d := by
  have hlen : 0 < l.length := List.length_pos.mpr hne
  have hd1 : (l.drop (l.length - 2)).length > 0 := by
    rw [List.length_drop]
    omega
  have hs : (ebSortByDate (l.drop (l.length - 2))).length
      = (l.drop (l.length - 2)).length :=
    (ebSortByDate_perm _).length_eq
  have hKlen : (ebKeptOf cur l).length > 0 := by
    simp only [ebKeptOf]
    split_ifs with hp
    · have h2 : ((ebSortByDate (l.drop (l.length - 2))).filter
          (fun r => r.sessionDate != cur)).length
          ≤ (ebSortByDate (l.drop (l.length - 2))).length :=
        List.length_filter_le _ _
      rw [List.length_drop]
      omega
    · omega
  refine ⟨by intro h; rw [h] at hKlen; simp at hKlen, ?_⟩
  intro r hr
  exact hall r (ebKeptOf_subset cur l r hr)

/-- The retention computation keeps at most two records. -/
theorem ebKeptOf_length_le (cur : Nat) (l : List EbBookmark) :
    (ebKeptOf cur l).length ≤ 2 := by
  simp only [ebKeptOf]
  have hs : (ebSortByDate (l.drop (l.length - 2))).length
      = (l.drop (l.length - 2)).length :=
    (ebSortByDate_perm _).length_eq
  split_ifs <;> rw [List.length_drop] at * <;> omega

/-- Core stability: restricting the collected records to the dates of
the kept records yields a list on which a second retention computation
still keeps every surviving date. -/
theorem ebKeptOf_stable (cur : Nat) (L : List EbBookmark) :
    ∀ r ∈ L.filter
        (fun s => (ebKeptOf cur L).any
          (fun k => k.sessionDate == s.sessionDate)),
      (ebKeptOf cur (L.filter
          (fun s => (ebKeptOf cur L).any
            (fun k => k.sessionDate == s.sessionDate)))).any
        (fun k => k.sessionDate == r.sessionDate) = true := by
  intro r hr
  set p : EbBookmark → Bool := fun s => (ebKeptOf cur L).any
      (fun k => k.sessionDate == s.sessionDate) with hp
  have hpr : p r = true := (List.mem_filter.mp hr).2
  have hne : L.filter p ≠ [] := by
    intro h
    rw [h] at hr
    simp at hr
  rcases hK0 : ebKeptOf cur L with _ | ⟨k1, _ | ⟨k2, _ | ⟨k3, ks⟩⟩⟩
  · -- empty kept list: p r could not have held
    rw [hp, hK0] at hpr
    simp at hpr
  · -- singleton kept list: all surviving records share its date
    have hdates : ∀ s ∈ L.filter p, s.sessionDate = k1.sessionDate := by
      intro s hs
      have hs2 : p s = true := (List.mem_filter.mp hs).2
      rw [hp, hK0] at hs2
      simp [List.any_eq_true] at hs2
      exact hs2.symm
    obtain ⟨hKne, hKall⟩ :=
      ebKeptOf_of_const cur k1.sessionDate (L.filter p) hne hdates
    obtain ⟨k0, hk0⟩ := List.exists_mem_of_ne_nil _ hKne
    apply List.any_eq_true.mpr
    exact ⟨k0, hk0, by simp [hKall k0 hk0, hdates r hr]⟩
  · by_cases hd : k1.sessionDate = k2.sessionDate
    · -- two kept records with one date: same argument as the singleton
      have hdates : ∀ s ∈ L.filter p, s.sessionDate = k2.sessionDate := by
        intro s hs
        have hs2 : p s = true := (List.mem_filter.mp hs).2
        rw [hp, hK0] at hs2
        simp [List.any_eq_true] at hs2
        rcases hs2 with h | h
        · rw [← h, hd]
        · rw [← h]
      obtain ⟨hKne, hKall⟩ :=
        ebKeptOf_of_const cur k2.sessionDate (L.filter p) hne hdates
      obtain ⟨k0, hk0⟩ := List.exists_mem_of_ne_nil _ hKne
      apply List.any_eq_true.mpr
      exact ⟨k0, hk0, by simp [hKall k0 hk0, hdates r hr]⟩
    · -- two kept records with distinct dates: the retained list ends
      -- with the same two records the first computation sorted, so the
      -- second computation keeps the same set
      set L2 := L.drop (L.length - 2) with hL2
      set S := ebSortByDate L2 with hS
      have hcases : ebKeptOf cur L
          = if (S.filter (fun s => s.sessionDate != cur)).length > 1
            then S.drop 1 else S := rfl
      have hSlen : S.length = L2.length := (ebSortByDate_perm L2).length_eq
      have hL2le : L2.length ≤ 2 := by
        rw [hL2, List.length_drop]
        omega
      have hKS : ebKeptOf cur L = S ∧
          ¬ (S.filter (fun s => s.sessionDate != cur)).length > 1 := by
        by_cases hbr : (S.filter (fun s => s.sessionDate != cur)).length > 1
        · rw [hcases, if_pos hbr] at hK0
          have hlen1 : (S.drop 1).length ≤ 1 := by
            rw [List.length_drop]
            omega
          rw [hK0] at hlen1
          simp at hlen1
        · exact ⟨by rw [hcases, if_neg hbr], hbr⟩
      obtain ⟨hKeq, hbr⟩ := hKS
      have hSval : S = [k1, k2] := by rw [← hKeq, hK0]
      have hL2len2 : L2.length = 2 := by
        rw [← hSlen, hSval]
        rfl
      obtain ⟨x, y, hxy⟩ := List.length_eq_two.mp hL2len2
      have hSxy : S = if x.sessionDate ≤ y.sessionDate
          then [x, y] else [y, x] := by
        rw [hS, hxy]
        simp [ebSortByDate, ebInsertByDate]
      have hmemx : x.sessionDate = k1.sessionDate ∨
          x.sessionDate = k2.sessionDate := by
        by_cases hle : x.sessionDate ≤ y.sessionDate
        · rw [if_pos hle] at hSxy
          rw [hSval] at hSxy
          exact Or.inl (by rw [(List.cons.injEq _ _ _ _).mp hSxy |>.1])
        · rw [if_neg hle] at hSxy
          rw [hSval] at hSxy
          have h2 := (List.cons.injEq _ _ _ _).mp hSxy
          have h3 := (List.cons.injEq _ _ _ _).mp h2.2
          exact Or.inr (by rw [h3.1])
      have hmemy : y.sessionDate = k1.sessionDate ∨
          y.sessionDate = k2.sessionDate := by
        by_cases hle : x.sessionDate ≤ y.sessionDate
        · rw [if_pos hle] at hSxy
          rw [hSval] at hSxy
          have h2 := (List.cons.injEq _ _ _ _).mp hSxy
          have h3 := (List.cons.injEq _ _ _ _).mp h2.2
          exact Or.inr (by rw [h3.1])
        · rw [if_neg hle] at hSxy
          rw [hSval] at hSxy
          exact Or.inl (by rw [(List.cons.injEq _ _ _ _).mp hSxy |>.1])
      have hpx : p x = true := by
        rw [hp, hK0]
        apply List.any_eq_true.mpr
        rcases hmemx with h | h
        · exact ⟨k1, by simp, by simp [h]⟩
        · exact ⟨k2, by simp, by simp [h]⟩
      have hpy : p y = true := by
        rw [hp, hK0]
        apply List.any_eq_true.mpr
        rcases hmemy with h | h
        · exact ⟨k1, by simp, by simp [h]⟩
        · exact ⟨k2, by simp, by simp [h]⟩
      have hfilter : L.filter p
          = (L.take (L.length - 2)).filter p ++ [x, y] := by
        conv_lhs => rw [← List.take_append_drop (L.length - 2) L]
        rw [List.filter_append, ← hL2, hxy]
        simp [List.filter_cons, hpx, hpy]
      have hdrop : (L.filter p).drop ((L.filter p).length - 2) = [x, y] := by
        rw [hfilter]
        have hlen2 : ((L.take (L.length - 2)).filter p ++ [x, y]).length
            = ((L.take (L.length - 2)).filter p).length + 2 := by
          simp
        rw [hlen2]
        have heq : ((L.take (L.length - 2)).filter p).length + 2 - 2
            = ((L.take (L.length - 2)).filter p).length := by
          omega
        rw [heq]
        exact List.drop_left _ _
      have hK2 : ebKeptOf cur (L.filter p) = S := by
        have hcases2 : ebKeptOf cur (L.filter p)
            = if ((ebSortByDate ((L.filter p).drop
                    ((L.filter p).length - 2))).filter
                  (fun s => s.sessionDate != cur)).length > 1
              then (ebSortByDate ((L.filter p).drop
                    ((L.filter p).length - 2))).drop 1
              else ebSortByDate ((L.filter p).drop
                    ((L.filter p).length - 2)) := rfl
        rw [hcases2, hdrop]
        have hSxy2 : ebSortByDate [x, y] = S := by rw [hS, hxy]
        rw [hSxy2, if_neg hbr]
      rw [hK2, hSval]
      have hpr2 : ([k1, k2].any (fun k => k.sessionDate == r.sessionDate))
          = true := by
        rw [hp, hK0] at hpr
        exact hpr
      exact hpr2
  · -- more than two kept records is impossible
    have hle := ebKeptOf_length_le cur L
    rw [hK0] at hle
    simp only [List.length_cons] at hle
    omega

/-- any is determined pointwise on the members. -/
theorem ebAnyCongr {α : Type} (l : List α) (p q : α → Bool)
    (h : ∀ a ∈ l, p a = q a) : l.any p = l.any q := by
  induction l with
  | nil => rfl
  | cons a as ih =>
    simp only [List.any_cons]
    rw [h a (by simp), ih (fun b hb => h b (by simp [hb]))]

/-- Filtering entries by a record predicate commutes with projecting the
records out. -/
theorem ebMapFilterSnd (l : List (String × EbBookmark))
    (p : EbBookmark → Bool) :
    (l.filter (fun e => p e.2)).map (fun e => e.2)
      = (l.map (fun e => e.2)).filter p := by
  induction l with
  | nil => rfl
  | cons a as ih =>
    by_cases h : p a.2 = true
    · simp [List.filter_cons, h, ih]
    · have h2 : p a.2 = false := by
        cases hx : p a.2
        · rfl
        · exact absurd hx h
      simp [List.filter_cons, h2, ih]

/-- C2 (corrected, amended claim).  The pruning operation is idempotent
provided the key-substring retention test identifies sessionDates
exactly on the title's lastLocation entries: a stored key contains the
decimal digits of a stored record's sessionDate only if that is the
record's own sessionDate.  This holds for the program's own states,
whose keys end in equal-length Date.now() timestamps; the counterexample
above shows the unconditional claim fails for substring-aliased
timestamps. -/
theorem ebCleanLastLocations_idempotent (title : String) (cur : Nat)
    (st : EbStorage)
    (h : ∀ e ∈ st.filter (ebIsLastLocationEntry title),
      ∀ e2 ∈ st.filter (ebIsLastLocationEntry title),
        strIncludes e.1 (toString e2.2.sessionDate)
          = (e2.2.sessionDate == e.2.sessionDate)) :
    ebBookmarksCleanLastLocations title cur
        (ebBookmarksCleanLastLocations title cur st)
      = ebBookmarksCleanLastLocations title cur st := by
  set Lst : List EbBookmark :=
    (st.filter (ebIsLastLocationEntry title)).map (fun e => e.2) with hLst
  set P : EbBookmark → Bool := fun s => (ebKeptOf cur Lst).any
      (fun k => k.sessionDate == s.sessionDate) with hP
  set C := ebBookmarksCleanLastLocations title cur st with hC
  -- the surviving lastLocation entries are exactly those whose date the
  -- kept list mentions
  have hKdef : ebKeptLastLocations title cur st = ebKeptOf cur Lst := rfl
  have hMC : C.filter (ebIsLastLocationEntry title)
      = (st.filter (ebIsLastLocationEntry title)).filter
          (fun e2 => P e2.2) := by
    rw [hC]
    simp only [ebBookmarksCleanLastLocations]
    rw [List.filter_filter, List.filter_filter]
    apply List.filter_congr
    intro a ha
    by_cases hLL : ebIsLastLocationEntry title a = true
    · simp only [hLL, if_true, Bool.and_true, Bool.true_and]
      rw [hKdef]
      apply ebAnyCongr
      intro k hk
      have hkL : k ∈ Lst := ebKeptOf_subset cur Lst k hk
      rw [hLst] at hkL
      obtain ⟨e3, he3, he3k⟩ := List.mem_map.mp hkL
      have hMa : a ∈ st.filter (ebIsLastLocationEntry title) :=
        List.mem_filter.mpr ⟨ha, hLL⟩
      have := h a hMa e3 he3
      rw [he3k] at this
      exact this
    · have hLL2 : ebIsLastLocationEntry title a = false := by
        cases hx : ebIsLastLocationEntry title a
        · rfl
        · exact absurd hx hLL
      simp [hLL2]
  have hLC : (C.filter (ebIsLastLocationEntry title)).map (fun e => e.2)
      = Lst.filter P := by
    rw [hMC, ebMapFilterSnd, hLst]
  -- every entry of the cleaned storage passes a second clean
  simp only [ebBookmarksCleanLastLocations]
  apply List.filter_eq_self.mpr
  intro e he
  by_cases hLL : ebIsLastLocationEntry title e = true
  · rw [if_pos hLL]
    have heSt : e ∈ st := (ebCleanLastLocations_sublist title cur st).subset
      (by rw [← hC]; exact he)
    have heM : e ∈ st.filter (ebIsLastLocationEntry title) :=
      List.mem_filter.mpr ⟨heSt, hLL⟩
    have heMC : e ∈ C.filter (ebIsLastLocationEntry title) :=
      List.mem_filter.mpr ⟨he, hLL⟩
    have heLC : e.2 ∈ Lst.filter P := by
      rw [← hLC]
      exact List.mem_map.mpr ⟨e, heMC, rfl⟩
    have hstab := ebKeptOf_stable cur Lst e.2 heLC
    have hK2 : ebKeptLastLocations title cur C = ebKeptOf cur (Lst.filter P) := by
      have : ebKeptLastLocations title cur C
          = ebKeptOf cur ((C.filter (ebIsLastLocationEntry title)).map
              (fun e => e.2)) := rfl
      rw [this, hLC]
    rw [hK2]
    have hconv : (ebKeptOf cur (Lst.filter P)).any
        (fun r => strIncludes e.1 (toString r.sessionDate))
      = (ebKeptOf cur (Lst.filter P)).any
          (fun k => k.sessionDate == e.2.sessionDate) := by
      apply ebAnyCongr
      intro k hk
      have hkL : k ∈ Lst.filter P := ebKeptOf_subset cur _ k hk
      have hkL2 : k ∈ Lst := (List.mem_filter.mp hkL).1
      rw [hLst] at hkL2
      obtain ⟨e3, he3, he3k⟩ := List.mem_map.mp hkL2
      have := h e heM e3 he3
      rw [he3k] at this
      exact this
    rw [hconv]
    exact hstab
  · have hLL2 : ebIsLastLocationEntry title e = false := by
      cases hx : ebIsLastLocationEntry title e
      · rfl
      · exact absurd hx hLL
    simp [hLL2]

/-- Witness for C2: a two-record state with equal-length timestamps (the
previous session 100 and the current session 200) satisfies the
exactness hypothesis, and cleaning it twice equals cleaning it once. -/
theorem ebCleanLastLocations_idempotent_witness :
    ebBookmarksCleanLastLocations "t" 200
        (ebBookmarksCleanLastLocations "t" 200 [exLL 100, exLL 200])
      = ebBookmarksCleanLastLocations "t" 200 [exLL 100, exLL 200] :=
  ebCleanLastLocations_idempotent "t" 200 [exLL 100, exLL 200] (by decide)

/-! ### C4: key derivation in ebBookmarksSetBookmark -/

/-- String append is left-cancellative. -/
theorem ebStringCancel (a b c : String) (h : a ++ b = a ++ c) : b = c := by
  have h2 : a.data ++ b.data = a.data ++ c.data := by
    have h3 := congrArg String.data h
    simp only [String.data_append] at h3
    exact h3
  exact String.ext (List.append_cancel_left h2)

/-- A character list is a prefix of itself extended on the right. -/
theorem ebIsPrefixOfAppend (l t : List Char) : l.isPrefixOf (l ++ t) = true := by
  induction l with
  | nil => simp
  | cons c cs ih => simp [List.isPrefixOf, ih]

/-- The infix test accepts the haystack's own leading copy. -/
theorem ebChIsInfix_self_append (n t : List Char) :
    chIsInfix n (n ++ t) = true := by
  cases n with
  | nil =>
    cases t with
    | nil => rfl
    | cons c cs => simp [chIsInfix]
  | cons c cs =>
    simp only [chIsInfix, List.cons_append]
    have h : List.isPrefixOf (c :: cs) (c :: (cs ++ t)) = true := by
      simp [List.isPrefixOf, ebIsPrefixOfAppend cs t]
    simp [h]

/-- The infix test is stable under extending the haystack on the left. -/
theorem ebChIsInfix_append_left (n pre h : List Char)
    (hh : chIsInfix n h = true) : chIsInfix n (pre ++ h) = true := by
  induction pre with
  | nil => exact hh
  | cons c cs ih => simp [chIsInfix, ih]

/-- getItem finds what setItem just stored. -/
theorem ebSetItem_getItem_self (st : EbStorage) (k : String)
    (v : EbBookmark) : ebGetItem (ebSetItem st k v) k = some v := by
  induction st with
  | nil => simp [ebSetItem, ebGetItem, List.find?]
  | cons e es ih =>
    simp only [ebSetItem]
    by_cases h : (e.1 == k) = true
    · simp [h, ebGetItem, List.find?]
    · have h2 : (e.1 == k) = false := by
        cases hx : e.1 == k
        · rfl
        · exact absurd hx h
      simpa [h2, ebGetItem, List.find?] using ih

/-- Storing at one key leaves lookups of other keys unchanged. -/
theorem ebSetItem_getItem_ne (st : EbStorage) (k k2 : String)
    (v : EbBookmark) (h : (k == k2) = false) :
    ebGetItem (ebSetItem st k v) k2 = ebGetItem st k2 := by
  induction st with
  | nil => simp [ebSetItem, ebGetItem, List.find?, h]
  | cons e es ih =>
    simp only [ebSetItem]
    by_cases he : (e.1 == k) = true
    · have hek : e.1 = k := by simpa using he
      simp [ebGetItem, List.find?, h, hek]
    · have he2 : (e.1 == k) = false := by
        cases hx : e.1 == k
        · rfl
        · exact absurd hx he
      have hnek : ¬ e.1 = k := by simpa using he2
      by_cases he3 : (e.1 == k2) = true
      · simp [ebGetItem, List.find?, hnek, he3]
      · have he4 : (e.1 == k2) = false := by
          cases hx : e.1 == k2
          · rfl
          · exact absurd hx he3
        simpa [ebGetItem, List.find?, hnek, he4] using ih

/-- After a setItem on a storage holding at most one entry at the key,
the entries at that key are exactly the new one. -/
theorem ebSetItem_filter_self (st : EbStorage) (k : String) (v : EbBookmark)
    (h : (st.filter (fun e => e.1 == k)).length ≤ 1) :
    (ebSetItem st k v).filter (fun e => e.1 == k) = [(k, v)] := by
  induction st with
  | nil => simp [ebSetItem]
  | cons e es ih =>
    simp only [ebSetItem]
    by_cases he : (e.1 == k) = true
    · have hes : (es.filter (fun e => e.1 == k)).length = 0 := by
        rw [List.filter_cons, if_pos he] at h
        simp only [List.length_cons] at h
        omega
      have hes2 : es.filter (fun e => e.1 == k) = [] :=
        List.length_eq_zero.mp hes
      simp [he, List.filter_cons, hes2]
    · have he2 : (e.1 == k) = false := by
        cases hx : e.1 == k
        · rfl
        · exact absurd hx he
      rw [List.filter_cons, if_neg (by simp [he2])] at h
      simp [he2, List.filter_cons, ih h]

/-- The housekeeping fold commutes away under any filter that only
keeps entries no clean ever touches. -/
theorem ebCleanFold_filter (cur : Nat) (ks : List String) (s : EbStorage)
    (p : String × EbBookmark → Bool)
    (hp : ∀ e, p e = true →
      (strStarts e.1 "bookmark-" && strIncludes e.1 "-lastLocation-")
        = false) :
    (ebCleanFold cur ks s).filter p = s.filter p := by
  induction ks generalizing s with
  | nil => rfl
  | cons k ks ih =>
    simp only [ebCleanFold]
    cases hg : ebGetItem s k with
    | none => exact ih s
    | some r =>
      rw [ih _]
      exact ebCleanLastLocations_filter r.bookTitle cur s p
        (fun e he => ebIsLastLocationEntry_eq_false r.bookTitle e (hp e he))

/-- userBookmark captures derive a session-independent type-only key,
so a second capture overwrites the first: afterwards the entries at that
key are exactly one record, the second capture's. -/
theorem ebSetBookmark_userOverwrite (c1 c2 : Nat)
    (slugify : String → String) (page : EbPage) (e1 e2 : EbElement)
    (d1 d2 : Option String) (st : EbStorage)
    (hcount : (st.filter (fun e =>
        e.1 == ebBookmarkKey (slugify page.bodyDataTitle) "userBookmark" c1)).length
      ≤ 1)
    (hseg : strIncludes
        (ebBookmarkKey (slugify page.bodyDataTitle) "userBookmark" c1)
        "-lastLocation-" = false) :
    (ebBookmarksSetBookmark c1 slugify page "userBookmark" e1 d1 st).1.key
        = (ebBookmarksSetBookmark c2 slugify page "userBookmark" e2 d2
            (ebBookmarksSetBookmark c1 slugify page "userBookmark" e1 d1 st).2).1.key
      ∧ ((ebBookmarksSetBookmark c2 slugify page "userBookmark" e2 d2
            (ebBookmarksSetBookmark c1 slugify page "userBookmark" e1 d1 st).2).2.filter
            (fun e => e.1
              == ebBookmarkKey (slugify page.bodyDataTitle) "userBookmark" c1)).map
          (fun e => e.2)
        = [(ebBookmarksSetBookmark c2 slugify page "userBookmark" e2 d2
            (ebBookmarksSetBookmark c1 slugify page "userBookmark" e1 d1 st).2).1] := by
  have hkey : ∀ c : Nat,
      ebBookmarkKey (slugify page.bodyDataTitle) "userBookmark" c
        = "bookmark-" ++ slugify page.bodyDataTitle ++ "-" ++ "userBookmark" := by
    intro c
    simp [ebBookmarkKey]
  have hp : ∀ e : String × EbBookmark,
      (e.1 == ebBookmarkKey (slugify page.bodyDataTitle) "userBookmark" c1) = true →
      (strStarts e.1 "bookmark-" && strIncludes e.1 "-lastLocation-") = false := by
    intro e he
    have he2 : e.1 = ebBookmarkKey (slugify page.bodyDataTitle) "userBookmark" c1 := by
      simpa using he
    rw [he2, hseg]
    simp
  have hkey1 : (ebBookmarksSetBookmark c1 slugify page "userBookmark" e1 d1 st).1.key
      = ebBookmarkKey (slugify page.bodyDataTitle) "userBookmark" c1 := rfl
  have hkey2 : (ebBookmarksSetBookmark c2 slugify page "userBookmark" e2 d2
      (ebBookmarksSetBookmark c1 slugify page "userBookmark" e1 d1 st).2).1.key
      = ebBookmarkKey (slugify page.bodyDataTitle) "userBookmark" c2 := rfl
  have hfilter1 : ((ebBookmarksSetBookmark c1 slugify page "userBookmark" e1 d1 st).2.filter
      (fun e => e.1 == ebBookmarkKey (slugify page.bodyDataTitle) "userBookmark" c1))
      = [(ebBookmarkKey (slugify page.bodyDataTitle) "userBookmark" c1,
          (ebBookmarksSetBookmark c1 slugify page "userBookmark" e1 d1 st).1)] := by
    have h1 : (ebBookmarksSetBookmark c1 slugify page "userBookmark" e1 d1 st).2
        = ebCleanFold c1
            (((ebSetItem st
                (ebBookmarkKey (slugify page.bodyDataTitle) "userBookmark" c1)
                (ebBookmarksSetBookmark c1 slugify page "userBookmark" e1 d1 st).1).map
              (fun e => e.1)).filter (fun k => strStarts k "bookmark-"))
            (ebSetItem st
              (ebBookmarkKey (slugify page.bodyDataTitle) "userBookmark" c1)
              (ebBookmarksSetBookmark c1 slugify page "userBookmark" e1 d1 st).1) := rfl
    rw [h1, ebCleanFold_filter _ _ _ _ hp]
    exact ebSetItem_filter_self st _ _ hcount
  have hfilter2 : ((ebBookmarksSetBookmark c2 slugify page "userBookmark" e2 d2
      (ebBookmarksSetBookmark c1 slugify page "userBookmark" e1 d1 st).2).2.filter
      (fun e => e.1 == ebBookmarkKey (slugify page.bodyDataTitle) "userBookmark" c1))
      = [(ebBookmarkKey (slugify page.bodyDataTitle) "userBookmark" c1,
          (ebBookmarksSetBookmark c2 slugify page "userBookmark" e2 d2
            (ebBookmarksSetBookmark c1 slugify page "userBookmark" e1 d1 st).2).1)] := by
    have h2 : (ebBookmarksSetBookmark c2 slugify page "userBookmark" e2 d2
        (ebBookmarksSetBookmark c1 slugify page "userBookmark" e1 d1 st).2).2
        = ebCleanFold c2
            (((ebSetItem
                (ebBookmarksSetBookmark c1 slugify page "userBookmark" e1 d1 st).2
                (ebBookmarkKey (slugify page.bodyDataTitle) "userBookmark" c2)
                (ebBookmarksSetBookmark c2 slugify page "userBookmark" e2 d2
                  (ebBookmarksSetBookmark c1 slugify page "userBookmark" e1 d1 st).2).1).map
              (fun e => e.1)).filter (fun k => strStarts k "bookmark-"))
            (ebSetItem
              (ebBookmarksSetBookmark c1 slugify page "userBookmark" e1 d1 st).2
              (ebBookmarkKey (slugify page.bodyDataTitle) "userBookmark" c2)
              (ebBookmarksSetBookmark c2 slugify page "userBookmark" e2 d2
                (ebBookmarksSetBookmark c1 slugify page "userBookmark" e1 d1 st).2).1) := rfl
    rw [h2, ebCleanFold_filter _ _ _ _ hp]
    have hck : ebBookmarkKey (slugify page.bodyDataTitle) "userBookmark" c2
        = ebBookmarkKey (slugify page.bodyDataTitle) "userBookmark" c1 := by
      rw [hkey c1, hkey c2]
    rw [hck]
    apply ebSetItem_filter_self
    rw [hfilter1]
    simp
  constructor
  · rw [hkey1, hkey2, hkey c1, hkey c2]
  · rw [hfilter2]
    simp

/-- Cleaning a one-entry storage whose key carries its record's own
sessionDate digits is a no-op. -/
theorem ebCleanLastLocations_single (cur : Nat) (k : String)
    (b : EbBookmark)
    (hst : strStarts k "bookmark-" = true)
    (hin : strIncludes k "-lastLocation-" = true)
    (hs : strIncludes k (toString b.sessionDate) = true) :
    ebBookmarksCleanLastLocations b.bookTitle cur [(k, b)] = [(k, b)] := by
  have hisLL : ebIsLastLocationEntry b.bookTitle (k, b) = true := by
    simp [ebIsLastLocationEntry, hst, hin]
  have hcoll : ([(k, b)] : EbStorage).filter
      (ebIsLastLocationEntry b.bookTitle) = [(k, b)] := by
    simp [List.filter_cons, hisLL]
  have hkept : ebKeptLastLocations b.bookTitle cur [(k, b)] = [b] := by
    simp only [ebKeptLastLocations, hcoll, List.map]
    simp only [ebKeptOf, ebSortByDate, ebInsertByDate]
    cases hx : (b.sessionDate != cur) <;> simp [hx]
  apply List.filter_eq_self.mpr
  intro e he
  have he2 : e = (k, b) := by simpa using he
  subst he2
  rw [if_pos hisLL, hkept]
  simp [hs]

/-- Cleaning a two-entry storage for one title is a no-op when each key
carries its own record's sessionDate digits and the second record
belongs to the current session. -/
theorem ebCleanLastLocations_pair (cur : Nat) (k1 k2 : String)
    (b1 b2 : EbBookmark)
    (hst1 : strStarts k1 "bookmark-" = true)
    (hst2 : strStarts k2 "bookmark-" = true)
    (hin1 : strIncludes k1 "-lastLocation-" = true)
    (hin2 : strIncludes k2 "-lastLocation-" = true)
    (hs1 : strIncludes k1 (toString b1.sessionDate) = true)
    (hs2 : strIncludes k2 (toString b2.sessionDate) = true)
    (htitle : b2.bookTitle = b1.bookTitle)
    (hcur : b2.sessionDate = cur) :
    ebBookmarksCleanLastLocations b1.bookTitle cur [(k1, b1), (k2, b2)]
      = [(k1, b1), (k2, b2)] := by
  have hisLL1 : ebIsLastLocationEntry b1.bookTitle (k1, b1) = true := by
    simp [ebIsLastLocationEntry, hst1, hin1]
  have hisLL2 : ebIsLastLocationEntry b1.bookTitle (k2, b2) = true := by
    simp [ebIsLastLocationEntry, hst2, hin2, htitle]
  have hcoll : ([(k1, b1), (k2, b2)] : EbStorage).filter
      (ebIsLastLocationEntry b1.bookTitle) = [(k1, b1), (k2, b2)] := by
    simp [List.filter_cons, hisLL1, hisLL2]
  have hkept : ebKeptLastLocations b1.bookTitle cur [(k1, b1), (k2, b2)]
      = if b1.sessionDate ≤ b2.sessionDate then [b1, b2] else [b2, b1] := by
    simp only [ebKeptLastLocations, hcoll, List.map]
    simp only [ebKeptOf, ebSortByDate, ebInsertByDate]
    have hx2 : (b2.sessionDate != cur) = false := by simp [hcur]
    by_cases hc : b1.sessionDate ≤ b2.sessionDate
    · cases hx : (b1.sessionDate != cur) <;> simp [hc, hx, hx2]
    · cases hx : (b1.sessionDate != cur) <;> simp [hc, hx, hx2]
  apply List.filter_eq_self.mpr
  intro e he
  have he2 : e = (k1, b1) ∨ e = (k2, b2) := by simpa using he
  rcases he2 with rfl | rfl
  · rw [if_pos hisLL1, hkept]
    by_cases hc : b1.sessionDate ≤ b2.sessionDate
    · simp [hc, hs1]
    · simp [hc, hs1]
  · rw [if_pos hisLL2, hkept]
    by_cases hc : b1.sessionDate ≤ b2.sessionDate
    · simp [hc, hs2]
    · simp [hc, hs2]

/-- The housekeeping pass is a no-op on a one-entry lastLocation
storage whose key carries its own sessionDate digits. -/
theorem ebCleanAll_single (cur : Nat) (k : String) (b : EbBookmark)
    (hst : strStarts k "bookmark-" = true)
    (hin : strIncludes k "-lastLocation-" = true)
    (hs : strIncludes k (toString b.sessionDate) = true) :
    ebBookmarksCleanAll cur [(k, b)] = [(k, b)] := by
  have hget : ebGetItem [(k, b)] k = some b := by
    simp [ebGetItem, List.find?]
  simp only [ebBookmarksCleanAll, List.map, List.filter_cons, hst, if_pos,
    List.filter_nil]
  simp only [ebCleanFold, hget]
  exact ebCleanLastLocations_single cur k b hst hin hs

/-- The housekeeping pass is a no-op on the two-entry lastLocation
storage produced by captures in two sessions. -/
theorem ebCleanAll_pair (cur : Nat) (k1 k2 : String) (b1 b2 : EbBookmark)
    (hk : (k1 == k2) = false)
    (hst1 : strStarts k1 "bookmark-" = true)
    (hst2 : strStarts k2 "bookmark-" = true)
    (hin1 : strIncludes k1 "-lastLocation-" = true)
    (hin2 : strIncludes k2 "-lastLocation-" = true)
    (hs1 : strIncludes k1 (toString b1.sessionDate) = true)
    (hs2 : strIncludes k2 (toString b2.sessionDate) = true)
    (htitle : b2.bookTitle = b1.bookTitle)
    (hcur : b2.sessionDate = cur) :
    ebBookmarksCleanAll cur [(k1, b1), (k2, b2)] = [(k1, b1), (k2, b2)] := by
  have hget1 : ebGetItem [(k1, b1), (k2, b2)] k1 = some b1 := by
    simp [ebGetItem, List.find?]
  have hget2 : ebGetItem [(k1, b1), (k2, b2)] k2 = some b2 := by
    simp [ebGetItem, List.find?, hk]
  have hclean : ebBookmarksCleanLastLocations b1.bookTitle cur
      [(k1, b1), (k2, b2)] = [(k1, b1), (k2, b2)] :=
    ebCleanLastLocations_pair cur k1 k2 b1 b2 hst1 hst2 hin1 hin2 hs1 hs2
      htitle hcur
  have hclean2 : ebBookmarksCleanLastLocations b2.bookTitle cur
      [(k1, b1), (k2, b2)] = [(k1, b1), (k2, b2)] := by
    rw [htitle]
    exact hclean
  simp only [ebBookmarksCleanAll, List.map, List.filter_cons, hst1, hst2,
    if_pos, List.filter_nil]
  simp only [ebCleanFold, hget1, hclean]
  simp only [hget2, hclean2]

/-- lastLocation captures derive a type-plus-session key: captures in
two sessions with distinct timestamp strings use distinct keys, and
starting from empty storage both records are present afterwards, each at
its own key. -/
theorem ebSetBookmark_lastLocationPerSession (c1 c2 : Nat)
    (slugify : String → String) (page : EbPage) (e1 e2 : EbElement)
    (d1 d2 : Option String)
    (hne : toString c1 ≠ toString c2) :
    ebBookmarkKey (slugify page.bodyDataTitle) "lastLocation" c1
        ≠ ebBookmarkKey (slugify page.bodyDataTitle) "lastLocation" c2
      ∧ ebGetItem (ebBookmarksSetBookmark c2 slugify page "lastLocation" e2 d2
            (ebBookmarksSetBookmark c1 slugify page "lastLocation" e1 d1 []).2).2
          (ebBookmarkKey (slugify page.bodyDataTitle) "lastLocation" c1)
        = some (ebBookmarksSetBookmark c1 slugify page "lastLocation" e1 d1 []).1
      ∧ ebGetItem (ebBookmarksSetBookmark c2 slugify page "lastLocation" e2 d2
            (ebBookmarksSetBookmark c1 slugify page "lastLocation" e1 d1 []).2).2
          (ebBookmarkKey (slugify page.bodyDataTitle) "lastLocation" c2)
        = some (ebBookmarksSetBookmark c2 slugify page "lastLocation" e2 d2
            (ebBookmarksSetBookmark c1 slugify page "lastLocation" e1 d1 []).2).1 := by
  have hkeq : ∀ c : Nat,
      ebBookmarkKey (slugify page.bodyDataTitle) "lastLocation" c
        = "bookmark-" ++ slugify page.bodyDataTitle ++ "-" ++ "lastLocation"
            ++ "-" ++ toString c := by
    intro c
    simp [ebBookmarkKey]
  have hmid : ("-" : String) ++ "lastLocation" ++ "-" = "-lastLocation-" := by
    decide
  have hkey2 : ∀ c : Nat,
      ebBookmarkKey (slugify page.bodyDataTitle) "lastLocation" c
        = ("bookmark-" ++ slugify page.bodyDataTitle)
            ++ ("-lastLocation-" ++ toString c) := by
    intro c
    rw [hkeq c, ← hmid]
    simp [String.append_assoc]
  have hk12 : ebBookmarkKey (slugify page.bodyDataTitle) "lastLocation" c1
      ≠ ebBookmarkKey (slugify page.bodyDataTitle) "lastLocation" c2 := by
    intro h
    apply hne
    rw [hkeq c1, hkeq c2] at h
    exact ebStringCancel _ _ _ h
  have hk12b : (ebBookmarkKey (slugify page.bodyDataTitle) "lastLocation" c1
      == ebBookmarkKey (slugify page.bodyDataTitle) "lastLocation" c2)
      = false := by
    simp [hk12]
  have hstarts : ∀ c : Nat,
      strStarts (ebBookmarkKey (slugify page.bodyDataTitle) "lastLocation" c)
        "bookmark-" = true := by
    intro c
    rw [hkey2 c]
    simp only [strStarts, String.data_append, List.append_assoc]
    exact ebIsPrefixOfAppend _ _
  have hincl : ∀ c : Nat,
      strIncludes (ebBookmarkKey (slugify page.bodyDataTitle) "lastLocation" c)
        "-lastLocation-" = true := by
    intro c
    rw [hkey2 c]
    simp only [strIncludes, String.data_append]
    exact ebChIsInfix_append_left _ _ _ (ebChIsInfix_self_append _ _)
  have hself : ∀ c : Nat,
      strIncludes (ebBookmarkKey (slugify page.bodyDataTitle) "lastLocation" c)
        (toString c) = true := by
    intro c
    rw [hkey2 c]
    simp only [strIncludes, String.data_append]
    apply ebChIsInfix_append_left
    apply ebChIsInfix_append_left
    have h := ebChIsInfix_self_append (toString c).data []
    rw [List.append_nil] at h
    exact h
  have hst1 : (ebBookmarksSetBookmark c1 slugify page "lastLocation" e1 d1 []).2
      = [(ebBookmarkKey (slugify page.bodyDataTitle) "lastLocation" c1,
          (ebBookmarksSetBookmark c1 slugify page "lastLocation" e1 d1 []).1)] := by
    have h0 : (ebBookmarksSetBookmark c1 slugify page "lastLocation" e1 d1 []).2
        = ebBookmarksCleanAll c1
            [(ebBookmarkKey (slugify page.bodyDataTitle) "lastLocation" c1,
              (ebBookmarksSetBookmark c1 slugify page "lastLocation" e1 d1 []).1)] :=
      rfl
    rw [h0]
    exact ebCleanAll_single c1 _ _ (hstarts c1) (hincl c1) (hself c1)
  have hst2 : (ebBookmarksSetBookmark c2 slugify page "lastLocation" e2 d2
      (ebBookmarksSetBookmark c1 slugify page "lastLocation" e1 d1 []).2).2
      = [(ebBookmarkKey (slugify page.bodyDataTitle) "lastLocation" c1,
          (ebBookmarksSetBookmark c1 slugify page "lastLocation" e1 d1 []).1),
         (ebBookmarkKey (slugify page.bodyDataTitle) "lastLocation" c2,
          (ebBookmarksSetBookmark c2 slugify page "lastLocation" e2 d2
            (ebBookmarksSetBookmark c1 slugify page "lastLocation" e1 d1 []).2).1)] := by
    have h0 : (ebBookmarksSetBookmark c2 slugify page "lastLocation" e2 d2
        (ebBookmarksSetBookmark c1 slugify page "lastLocation" e1 d1 []).2).2
        = ebBookmarksCleanAll c2
            (ebSetItem
              (ebBookmarksSetBookmark c1 slugify page "lastLocation" e1 d1 []).2
              (ebBookmarkKey (slugify page.bodyDataTitle) "lastLocation" c2)
              (ebBookmarksSetBookmark c2 slugify page "lastLocation" e2 d2
                (ebBookmarksSetBookmark c1 slugify page "lastLocation" e1 d1 []).2).1) :=
      rfl
    rw [h0, hst1]
    simp only [ebSetItem, hk12b, Bool.false_eq_true, if_false]
    exact ebCleanAll_pair c2 _ _ _ _ hk12b (hstarts c1) (hstarts c2)
      (hincl c1) (hincl c2) (hself c1) (hself c2) rfl rfl
  refine ⟨hk12, ?_, ?_⟩
  · rw [hst2]
    simp [ebGetItem, List.find?]
  · rw [hst2]
    simp [ebGetItem, List.find?, hk12b]

/-- C4 (confirmed).  setBookmark derives a type-only key for a
userBookmark, so two captures for the same title use the same key in any
two sessions and exactly one record remains at that key afterwards, with
the second capture's fields; a lastLocation capture derives a
type-plus-session key, so captures in sessions with distinct timestamp
strings create distinct entries, both present afterwards.  (The
userBookmark part assumes real-localStorage key uniqueness — at most one
stored entry at the derived key — and that the slugified title does not
itself contain the lastLocation key segment.) -/
theorem ebSetBookmark_keyDerivation :
    (∀ (c1 c2 : Nat) (slugify : String → String) (page : EbPage)
        (e1 e2 : EbElement) (d1 d2 : Option String) (st : EbStorage),
      (st.filter (fun e =>
          e.1 == ebBookmarkKey (slugify page.bodyDataTitle) "userBookmark" c1)).length
        ≤ 1 →
      strIncludes (ebBookmarkKey (slugify page.bodyDataTitle) "userBookmark" c1)
          "-lastLocation-" = false →
      (ebBookmarksSetBookmark c1 slugify page "userBookmark" e1 d1 st).1.key
          = (ebBookmarksSetBookmark c2 slugify page "userBookmark" e2 d2
              (ebBookmarksSetBookmark c1 slugify page "userBookmark" e1 d1 st).2).1.key
        ∧ ((ebBookmarksSetBookmark c2 slugify page "userBookmark" e2 d2
              (ebBookmarksSetBookmark c1 slugify page "userBookmark" e1 d1 st).2).2.filter
              (fun e => e.1
                == ebBookmarkKey (slugify page.bodyDataTitle) "userBookmark" c1)).map
            (fun e => e.2)
          = [(ebBookmarksSetBookmark c2 slugify page "userBookmark" e2 d2
              (ebBookmarksSetBookmark c1 slugify page "userBookmark" e1 d1 st).2).1])
    ∧ (∀ (c1 c2 : Nat) (slugify : String → String) (page : EbPage)
        (e1 e2 : EbElement) (d1 d2 : Option String),
      toString c1 ≠ toString c2 →
      ebBookmarkKey (slugify page.bodyDataTitle) "lastLocation" c1
          ≠ ebBookmarkKey (slugify page.bodyDataTitle) "lastLocation" c2
        ∧ ebGetItem (ebBookmarksSetBookmark c2 slugify page "lastLocation" e2 d2
              (ebBookmarksSetBookmark c1 slugify page "lastLocation" e1 d1 []).2).2
            (ebBookmarkKey (slugify page.bodyDataTitle) "lastLocation" c1)
          = some (ebBookmarksSetBookmark c1 slugify page "lastLocation" e1 d1 []).1
        ∧ ebGetItem (ebBookmarksSetBookmark c2 slugify page "lastLocation" e2 d2
              (ebBookmarksSetBookmark c1 slugify page "lastLocation" e1 d1 []).2).2
            (ebBookmarkKey (slugify page.bodyDataTitle) "lastLocation" c2)
          = some (ebBookmarksSetBookmark c2 slugify page "lastLocation" e2 d2
              (ebBookmarksSetBookmark c1 slugify page "lastLocation" e1 d1 []).2).1) :=
  ⟨fun c1 c2 slugify page e1 e2 d1 d2 st h1 h2 =>
    ebSetBookmark_userOverwrite c1 c2 slugify page e1 e2 d1 d2 st h1 h2,
   fun c1 c2 slugify page e1 e2 d1 d2 h =>
    ebSetBookmark_lastLocationPerSession c1 c2 slugify page e1 e2 d1 d2 h⟩

/-- Witness for C4: with title T slugified to t, two userBookmark
captures in sessions 100 and 200 derive the same key, and two
lastLocation captures derive distinct keys. -/
theorem ebSetBookmark_keyDerivation_witness :
    (ebBookmarksSetBookmark 100 (fun _ => "t")
        { bodyDataTitle := "T", docTitle := "P", href := "https://site/page",
          hash := "", firstID := "e1" } "userBookmark"
        { id := "sec-1", innerText := "Hello world. ABC", fingerprint := none }
        (some "n1") []).1.key
      = (ebBookmarksSetBookmark 200 (fun _ => "t")
          { bodyDataTitle := "T", docTitle := "P", href := "https://site/page",
            hash := "", firstID := "e1" } "userBookmark"
          { id := "sec-1", innerText := "Hello world. ABC", fingerprint := none }
          (some "n2")
          (ebBookmarksSetBookmark 100 (fun _ => "t")
            { bodyDataTitle := "T", docTitle := "P", href := "https://site/page",
              hash := "", firstID := "e1" } "userBookmark"
            { id := "sec-1", innerText := "Hello world. ABC", fingerprint := none }
            (some "n1") []).2).1.key
    ∧ ebBookmarkKey "t" "lastLocation" 100 ≠ ebBookmarkKey "t" "lastLocation" 200 :=
  ⟨(ebSetBookmark_keyDerivation.1 100 200 (fun _ => "t")
      { bodyDataTitle := "T", docTitle := "P", href := "https://site/page",
        hash := "", firstID := "e1" }
      { id := "sec-1", innerText := "Hello world. ABC", fingerprint := none }
      { id := "sec-1", innerText := "Hello world. ABC", fingerprint := none }
      (some "n1") (some "n2") [] (by decide) (by decide)).1,
   (ebSetBookmark_keyDerivation.2 100 200 (fun _ => "t")
      { bodyDataTitle := "T", docTitle := "P", href := "https://site/page",
        hash := "", firstID := "e1" }
      { id := "sec-1", innerText := "Hello world. ABC", fingerprint := none }
      { id := "sec-1", innerText := "Hello world. ABC", fingerprint := none }
      none none (by decide)).1⟩
